import Mathlib

/-!
Verification of the WZ→NX converter (go-wztonx-converter) against its
natural-language specification.  The Go source is shallowly embedded:
byte buffers become `List Nat` (each element a byte value), machine
integers become `Nat`/`Int` with explicit `% 2^w` where the source
truncates, fallible code returns `Except String`, and the concurrent
fan-outs (image parsing, bitmap compression) are modelled by their
deterministic per-index semantics, which the source makes race-free by
writing each index from exactly one worker.
-/

namespace WzToNx

/-! ## Pixel codec (image.go)

Colour lookup tables `table4`, `table5`, `table6` and the per-format
converters `convertARGB4444`, `convertARGB8888`, `convertRGB565`,
transcribed from image.go.  A pixel loop `for i := 0; i < pixels &&
bound(i); i++` becomes a fuel-free recursion on `pixels - i` testing the
same conjunction each step. -/

def table4 : List Nat :=
  [0x00, 0x11, 0x22, 0x33, 0x44, 0x55, 0x66, 0x77,
   0x88, 0x99, 0xAA, 0xBB, 0xCC, 0xDD, 0xEE, 0xFF]

def table5 : List Nat :=
  [0x00, 0x08, 0x10, 0x19, 0x21, 0x29, 0x31, 0x3A,
   0x42, 0x4A, 0x52, 0x5A, 0x63, 0x6B, 0x73, 0x7B,
   0x84, 0x8C, 0x94, 0x9C, 0xA5, 0xAD, 0xB5, 0xBD,
   0xC5, 0xCE, 0xD6, 0xDE, 0xE6, 0xEF, 0xF7, 0xFF]

def table6 : List Nat :=
  [0x00, 0x04, 0x08, 0x0C, 0x10, 0x14, 0x18, 0x1C,
   0x20, 0x24, 0x28, 0x2D, 0x31, 0x35, 0x39, 0x3D,
   0x41, 0x45, 0x49, 0x4D, 0x51, 0x55, 0x59, 0x5D,
   0x61, 0x65, 0x69, 0x6D, 0x71, 0x75, 0x79, 0x7D,
   0x82, 0x86, 0x8A, 0x8E, 0x92, 0x96, 0x9A, 0x9E,
   0xA2, 0xA6, 0xAA, 0xAE, 0xB2, 0xB6, 0xBA, 0xBE,
   0xC2, 0xC6, 0xCA, 0xCE, 0xD2, 0xD7, 0xDB, 0xDF,
   0xE3, 0xE7, 0xEB, 0xEF, 0xF3, 0xF7, 0xFB, 0xFF]

/-- `binary.LittleEndian.Uint16(data[2i:])` -/
def readU16LE (data : List Nat) (off : Nat) : Nat :=
  data.getD off 0 + 256 * data.getD (off + 1) 0

/-- Loop body of `convertRGB565`: field extraction `(v >> 11) & 0x1F`,
`(v >> 5) & 0x3F`, `v & 0x1F` written with `/` and `%`. -/
def convertRGB565Loop (data : List Nat) (pixels : Nat) (i : Nat)
    (out : List Nat) : List Nat :=
  if i < pixels ∧ 2 * i + 1 < data.length then
    let v := readU16LE data (2 * i)
    let out := ((((out.set (4 * i) (table5.getD (v / 2048 % 32) 0)).set
        (4 * i + 1) (table6.getD (v / 32 % 64) 0)).set
        (4 * i + 2) (table5.getD (v % 32) 0)).set
        (4 * i + 3) 255)
    convertRGB565Loop data pixels (i + 1) out
  else out
termination_by pixels - i
decreasing_by omega

def convertRGB565 (data : List Nat) (width height : Nat) : List Nat :=
  convertRGB565Loop data (width * height) 0
    (List.replicate (width * height * 4) 0)

/-- Loop body of `convertARGB4444`: nibbles `(v>>8)&0xF`, `(v>>4)&0xF`,
`v&0xF`, `(v>>12)&0xF` through `table4`. -/
def convertARGB4444Loop (data : List Nat) (pixels : Nat) (i : Nat)
    (out : List Nat) : List Nat :=
  if i < pixels ∧ 2 * i + 1 < data.length then
    let v := readU16LE data (2 * i)
    let out := ((((out.set (4 * i) (table4.getD (v / 256 % 16) 0)).set
        (4 * i + 1) (table4.getD (v / 16 % 16) 0)).set
        (4 * i + 2) (table4.getD (v % 16) 0)).set
        (4 * i + 3) (table4.getD (v / 4096 % 16) 0))
    convertARGB4444Loop data pixels (i + 1) out
  else out
termination_by pixels - i
decreasing_by omega

def convertARGB4444 (data : List Nat) (width height : Nat) : List Nat :=
  convertARGB4444Loop data (width * height) 0
    (List.replicate (width * height * 4) 0)

/-- Loop body of `convertARGB8888`: WZ stores B,G,R,A; output R,G,B,A. -/
def convertARGB8888Loop (data : List Nat) (pixels : Nat) (i : Nat)
    (out : List Nat) : List Nat :=
  if i < pixels ∧ 4 * i + 3 < data.length then
    let out := ((((out.set (4 * i) (data.getD (4 * i + 2) 0)).set
        (4 * i + 1) (data.getD (4 * i + 1) 0)).set
        (4 * i + 2) (data.getD (4 * i) 0)).set
        (4 * i + 3) (data.getD (4 * i + 3) 0))
    convertARGB8888Loop data pixels (i + 1) out
  else out
termination_by pixels - i
decreasing_by omega

def convertARGB8888 (data : List Nat) (width height : Nat) : List Nat :=
  convertARGB8888Loop data (width * height) 0
    (List.replicate (width * height * 4) 0)

/-- `scaleImage` (nearest neighbour, image.go): pixel (x,y) of the
scaled image copies source pixel (x/scale, y/scale); guarded writes. -/
def scaleImagePixel (data : List Nat) (width scale : Nat)
    (out : List Nat) (newWidth x y : Nat) : List Nat :=
  let srcIdx := (y / scale * width + x / scale) * 4
  let dstIdx := (y * newWidth + x) * 4
  if srcIdx + 3 < data.length ∧ dstIdx + 3 < out.length then
    (((out.set dstIdx (data.getD srcIdx 0)).set
      (dstIdx + 1) (data.getD (srcIdx + 1) 0)).set
      (dstIdx + 2) (data.getD (srcIdx + 2) 0)).set
      (dstIdx + 3) (data.getD (srcIdx + 3) 0)
  else out

def scaleImage (data : List Nat) (width height scale : Nat) : List Nat :=
  if scale ≤ 1 ∨ data.length = 0 then data
  else
    let newWidth := width * scale
    let newHeight := height * scale
    (List.range newHeight).foldl (fun acc y =>
      (List.range newWidth).foldl (fun acc2 x =>
        scaleImagePixel data width scale acc2 newWidth x y) acc)
      (List.replicate (newWidth * newHeight * 4) 0)

/-! ### Lemmas about the pixel loops -/

theorem getD_set_ne (l : List Nat) (m n a : Nat) (h : m ≠ n) :
    (l.set m a).getD n 0 = l.getD n 0 := by
  rw [List.getD_eq_getD_get?, List.getD_eq_getD_get?, List.get?_set_ne _ _ h]

theorem getD_replicate_zero (r n : Nat) :
    (List.replicate r (0 : Nat)).getD n 0 = 0 := by
  rcases Nat.lt_or_ge n r with h | h
  · rw [List.getD_eq_getElem _ _ (by simpa using h), List.getElem_replicate]
  · rw [List.getD_eq_default _ _ (by simpa using h)]

theorem convertRGB565Loop_length (data : List Nat) (pixels i : Nat)
    (out : List Nat) :
    (convertRGB565Loop data pixels i out).length = out.length := by
  rw [convertRGB565Loop]
  split
  · rw [convertRGB565Loop_length]; simp
  · rfl
termination_by pixels - i
decreasing_by omega

theorem convertARGB4444Loop_length (data : List Nat) (pixels i : Nat)
    (out : List Nat) :
    (convertARGB4444Loop data pixels i out).length = out.length := by
  rw [convertARGB4444Loop]
  split
  · rw [convertARGB4444Loop_length]; simp
  · rfl
termination_by pixels - i
decreasing_by omega

theorem convertARGB8888Loop_length (data : List Nat) (pixels i : Nat)
    (out : List Nat) :
    (convertARGB8888Loop data pixels i out).length = out.length := by
  rw [convertARGB8888Loop]
  split
  · rw [convertARGB8888Loop_length]; simp
  · rfl
termination_by pixels - i
decreasing_by omega

/-- A pixel index `j` whose source bytes lie beyond the input keeps its
initial bytes through the RGB565 loop. -/
theorem convertRGB565Loop_untouched (data : List Nat) (pixels i : Nat)
    (out : List Nat) (j k : Nat) (hk : k < 4) (hj : data.length ≤ 2 * j + 1)
    (h0 : out.getD (4 * j + k) 0 = 0) :
    (convertRGB565Loop data pixels i out).getD (4 * j + k) 0 = 0 := by
  rw [convertRGB565Loop]
  split
  · rename_i h
    have hij : i < j := by omega
    exact convertRGB565Loop_untouched data pixels (i + 1) _ j k hk hj (by
      rw [getD_set_ne _ _ _ _ (by omega), getD_set_ne _ _ _ _ (by omega),
        getD_set_ne _ _ _ _ (by omega), getD_set_ne _ _ _ _ (by omega)]
      exact h0)
  · exact h0
termination_by pixels - i
decreasing_by omega

theorem convertARGB4444Loop_untouched (data : List Nat) (pixels i : Nat)
    (out : List Nat) (j k : Nat) (hk : k < 4) (hj : data.length ≤ 2 * j + 1)
    (h0 : out.getD (4 * j + k) 0 = 0) :
    (convertARGB4444Loop data pixels i out).getD (4 * j + k) 0 = 0 := by
  rw [convertARGB4444Loop]
  split
  · rename_i h
    have hij : i < j := by omega
    exact convertARGB4444Loop_untouched data pixels (i + 1) _ j k hk hj (by
      rw [getD_set_ne _ _ _ _ (by omega), getD_set_ne _ _ _ _ (by omega),
        getD_set_ne _ _ _ _ (by omega), getD_set_ne _ _ _ _ (by omega)]
      exact h0)
  · exact h0
termination_by pixels - i
decreasing_by omega

theorem convertARGB8888Loop_untouched (data : List Nat) (pixels i : Nat)
    (out : List Nat) (j k : Nat) (hk : k < 4) (hj : data.length ≤ 4 * j + 3)
    (h0 : out.getD (4 * j + k) 0 = 0) :
    (convertARGB8888Loop data pixels i out).getD (4 * j + k) 0 = 0 := by
  rw [convertARGB8888Loop]
  split
  · rename_i h
    have hij : i < j := by omega
    exact convertARGB8888Loop_untouched data pixels (i + 1) _ j k hk hj (by
      rw [getD_set_ne _ _ _ _ (by omega), getD_set_ne _ _ _ _ (by omega),
        getD_set_ne _ _ _ _ (by omega), getD_set_ne _ _ _ _ (by omega)]
      exact h0)
  · exact h0
termination_by pixels - i
decreasing_by omega
/-! ### Claims C9 and C10 -/

/-- C9: `convertRGB565` applied to the two-byte input `[0xFF, 0xFF]` with
width 1 and height 1 returns exactly `[255, 255, 255, 255]` (opaque
white): the 5-bit red and blue fields index `table5` to `0xFF`, the
6-bit green field indexes `table6` to `0xFF`, and the alpha byte is
always 255. -/
theorem claim_C9_rgb565_opaque_white :
    convertRGB565 [0xFF, 0xFF] 1 1 = [255, 255, 255, 255] := by
  rw [convertRGB565, convertRGB565Loop, convertRGB565Loop]
  norm_num [readU16LE, table5, table6]
  rfl

/-- C10: for every byte slice `data` and every `width > 0`, `height > 0`,
`convertARGB4444`, `convertARGB8888` and `convertRGB565` each return a
buffer of exactly `width*height*4` bytes, and pixels beyond the
available input bytes are left as zero bytes (including the alpha byte)
rather than causing an error: the out-of-range iterations never run, so
all four output bytes of such a pixel keep their initial zero value. -/
theorem claim_C10_codec_safety (data : List Nat) (width height : Nat)
    (hw : 0 < width) (hh : 0 < height) :
    ((convertARGB4444 data width height).length = width * height * 4
      ∧ (convertARGB8888 data width height).length = width * height * 4
      ∧ (convertRGB565 data width height).length = width * height * 4)
    ∧ (∀ i k, i < width * height → k < 4 → data.length ≤ 2 * i + 1 →
        (convertARGB4444 data width height).getD (4 * i + k) 0 = 0
          ∧ (convertRGB565 data width height).getD (4 * i + k) 0 = 0)
    ∧ (∀ i k, i < width * height → k < 4 → data.length ≤ 4 * i + 3 →
        (convertARGB8888 data width height).getD (4 * i + k) 0 = 0) := by
  refine ⟨⟨?_, ?_, ?_⟩, ?_, ?_⟩
  · rw [convertARGB4444, convertARGB4444Loop_length, List.length_replicate]
  · rw [convertARGB8888, convertARGB8888Loop_length, List.length_replicate]
  · rw [convertRGB565, convertRGB565Loop_length, List.length_replicate]
  · intro i k hi hk hd
    exact ⟨convertARGB4444Loop_untouched data (width * height) 0 _ i k hk hd
        (getD_replicate_zero _ _),
      convertRGB565Loop_untouched data (width * height) 0 _ i k hk hd
        (getD_replicate_zero _ _)⟩
  · intro i k hi hk hd
    exact convertARGB8888Loop_untouched data (width * height) 0 _ i k hk hd
      (getD_replicate_zero _ _)

/-- Witness for C10 at a concrete input: a 2×2 image with a single input
byte; pixel 1 is beyond the input, so its bytes stay zero. -/
theorem claim_C10_witness :
    (convertRGB565 [0xAB] 2 2).length = 16
      ∧ (convertRGB565 [0xAB] 2 2).getD 7 0 = 0 := by
  have h := claim_C10_codec_safety [0xAB] 2 2 (by decide) (by decide)
  refine ⟨?_, ?_⟩
  · simpa using h.1.2.2
  · simpa using (h.2.1 1 3 (by decide) (by decide) (by decide)).2

/-! ## NX data model (converter.go)

`Node`, `BitmapData`, `AudioData` and the `Converter` state.  The Go
`Node.Data interface{}` payload becomes the closed sum `MPayload`
(`pnil` models a nil payload; `pfloat` carries the raw 64-bit pattern of
the float, whose numeric meaning no claim depends on). -/

inductive MPayload where
  | pnil
  | pint (v : Int)
  | pfloat (bits : Nat)
  | pstr (s : String)
  | ppoint (x y : Int)
  | pbitmap (id w h : Nat)
  | paudio (id len : Nat)
  deriving DecidableEq

inductive MNode where
  | mk (name : String) (ty : Nat) (payload : MPayload) (children : List MNode)

def MNode.name : MNode → String
  | .mk n _ _ _ => n

def MNode.ty : MNode → Nat
  | .mk _ t _ _ => t

def MNode.payload : MNode → MPayload
  | .mk _ _ p _ => p

def MNode.children : MNode → List MNode
  | .mk _ _ _ cs => cs

structure MBitmapData where
  width : Nat
  height : Nat
  data : List Nat
  compressedData : List Nat
  offset : Nat
  deriving DecidableEq

structure MAudioData where
  length : Nat
  data : List Nat
  compressedData : List Nat
  offset : Nat
  deriving DecidableEq

/-- Node type constants from converter.go. -/
def NodeTypeNone : Nat := 0
def NodeTypeInt64 : Nat := 1
def NodeTypeDouble : Nat := 2
def NodeTypeString : Nat := 3
def NodeTypePOINT : Nat := 4
def NodeTypeBitmap : Nat := 5
def NodeTypeAudio : Nat := 6

/-- The converter state.  The Go `map[string]uint32` becomes an
association list queried by first match; the code never inserts a key
twice, so first-match lookup is the map's semantics. -/
structure Converter where
  client : Bool
  hc : Bool
  nodes : List MNode
  strings : List String
  stringMap : List (String × Nat)
  bitmaps : List MBitmapData
  audio : List MAudioData

def NewConverter (client hc : Bool) : Converter :=
  ⟨client, hc, [], [], [], [], []⟩

def lookupMap : List (String × Nat) → String → Option Nat
  | [], _ => none
  | (k, v) :: rest, s => if k = s then some v else lookupMap rest s

/-- `addString` (converter.go): return the existing id if present, else
append the string with the next sequential id. -/
def addString (c : Converter) (str : String) : Nat × Converter :=
  match lookupMap c.stringMap str with
  | some id => (id, c)
  | none =>
    let id := c.strings.length
    (id, { c with strings := c.strings ++ [str],
                  stringMap := c.stringMap ++ [(str, id)] })

/-- `getStringID` (converter.go): lookup, falling back to `addString`. -/
def getStringID (c : Converter) (str : String) : Nat × Converter :=
  match lookupMap c.stringMap str with
  | some id => (id, c)
  | none => addString c str

/-- A sequence of intern calls (discarding the returned ids). -/
def internAll (ws : List String) (c : Converter) : Converter :=
  ws.foldl (fun c s => (addString c s).2) c

/-! ### String-table invariant -/

/-- The `strings` slice has no duplicates and `stringMap` maps each
string to exactly its index in `strings`. -/
def GoodTable (c : Converter) : Prop :=
  c.strings.Nodup ∧
    ∀ s i, lookupMap c.stringMap s = some i ↔ c.strings.get? i = some s

theorem lookupMap_append (m₁ m₂ : List (String × Nat)) (s : String) :
    lookupMap (m₁ ++ m₂) s =
      ((lookupMap m₁ s).rec (lookupMap m₂ s) fun v => some v) := by
  induction m₁ with
  | nil => rfl
  | cons kv rest ih =>
    obtain ⟨k, v⟩ := kv
    by_cases h : k = s <;> simp [lookupMap, h, ih]

theorem goodTable_new (client hc : Bool) : GoodTable (NewConverter client hc) := by
  constructor
  · exact List.nodup_nil
  · intro s i
    simp [NewConverter, lookupMap]

theorem goodTable_addString (c : Converter) (s : String) (h : GoodTable c) :
    GoodTable (addString c s).2 := by
  obtain ⟨hnd, hiff⟩ := h
  rw [addString]
  cases hm : lookupMap c.stringMap s with
  | some id => exact ⟨hnd, hiff⟩
  | none =>
    have hsnot : s ∉ c.strings := by
      intro hmem
      obtain ⟨i, hi⟩ := List.mem_iff_get?.mp hmem
      rw [(hiff s i).mpr hi] at hm
      exact Option.noConfusion hm
    refine ⟨?_, ?_⟩
    · simpa [List.nodup_append] using ⟨hnd, hsnot⟩
    · intro t i
      rw [lookupMap_append]
      cases hmt : lookupMap c.stringMap t with
      | some j =>
        have hj : c.strings.get? j = some t := (hiff t j).mp hmt
        have hjlt : j < c.strings.length := (List.get?_eq_some.mp hj).1
        constructor
        · intro hij
          cases hij
          rw [List.get?_append hjlt]
          exact hj
        · intro hget
          rcases Nat.lt_trichotomy i c.strings.length with hlt | heq | hgt
          · rw [List.get?_append hlt] at hget
            have h2 := (hiff t i).mpr hget
            rw [hmt] at h2
            cases h2
            rfl
          · subst heq
            rw [List.get?_append_right (Nat.le_refl _)] at hget
            simp at hget
            subst hget
            rw [hmt] at hm
            exact Option.noConfusion hm
          · rw [List.get?_eq_none.mpr (by simp; omega)] at hget
            exact Option.noConfusion hget
      | none =>
        simp only [lookupMap]
        by_cases hts : s = t
        · subst hts
          simp only [if_pos rfl]
          constructor
          · intro hi
            cases hi
            rw [List.get?_append_right (Nat.le_refl _)]
            simp
          · intro hget
            rcases Nat.lt_trichotomy i c.strings.length with hlt | heq | hgt
            · rw [List.get?_append hlt] at hget
              have h2 := (hiff s i).mpr hget
              rw [hmt] at h2
              exact Option.noConfusion h2
            · subst heq
              rfl
            · rw [List.get?_eq_none.mpr (by simp; omega)] at hget
              exact Option.noConfusion hget
        · rw [if_neg hts]
          constructor
          · intro hfalse
            exact Option.noConfusion hfalse
          · intro hget
            rcases Nat.lt_trichotomy i c.strings.length with hlt | heq | hgt
            · rw [List.get?_append hlt] at hget
              have h2 := (hiff t i).mpr hget
              rw [hmt] at h2
              exact Option.noConfusion h2
            · subst heq
              rw [List.get?_append_right (Nat.le_refl _)] at hget
              simp at hget
              exact absurd hget hts
            · rw [List.get?_eq_none.mpr (by simp; omega)] at hget
              exact Option.noConfusion hget

theorem addString_lookup_self (c : Converter) (s : String) :
    lookupMap (addString c s).2.stringMap s = some (addString c s).1 := by
  rw [addString]
  cases hm : lookupMap c.stringMap s with
  | some id => exact hm
  | none =>
    simp only
    rw [lookupMap_append, hm]
    simp [lookupMap]

theorem addString_lookup_mono (c : Converter) (t s : String) (i : Nat)
    (h : lookupMap c.stringMap t = some i) :
    lookupMap (addString c s).2.stringMap t = some i := by
  rw [addString]
  cases hm : lookupMap c.stringMap s with
  | some id => exact h
  | none =>
    simp only
    rw [lookupMap_append, h]

theorem internAll_lookup_mono (ws : List String) (c : Converter)
    (t : String) (i : Nat) (h : lookupMap c.stringMap t = some i) :
    lookupMap (internAll ws c).stringMap t = some i := by
  induction ws generalizing c with
  | nil => exact h
  | cons w rest ih =>
    exact ih (addString c w).2 (addString_lookup_mono c t w i h)

theorem addString_of_lookup (c : Converter) (s : String) (i : Nat)
    (h : lookupMap c.stringMap s = some i) : (addString c s).1 = i := by
  rw [addString, h]

theorem goodTable_internAll (ws : List String) (c : Converter)
    (h : GoodTable c) : GoodTable (internAll ws c) := by
  induction ws generalizing c with
  | nil => exact h
  | cons w rest ih => exact ih _ (goodTable_addString c w h)

theorem addString_mem (c : Converter) (s x : String) (h : GoodTable c) :
    x ∈ (addString c s).2.strings ↔ x ∈ c.strings ∨ x = s := by
  rw [addString]
  cases hm : lookupMap c.stringMap s with
  | some id =>
    have hs : s ∈ c.strings := by
      have h2 := (h.2 s id).mp hm
      exact List.get?_mem h2
    constructor
    · exact Or.inl
    · rintro (hx | rfl)
      · exact hx
      · exact hs
  | none => simp

theorem internAll_mem (ws : List String) (c : Converter) (h : GoodTable c)
    (x : String) :
    x ∈ (internAll ws c).strings ↔ x ∈ c.strings ∨ x ∈ ws := by
  induction ws generalizing c with
  | nil => simp [internAll]
  | cons w rest ih =>
    have h2 := ih (addString c w).2 (goodTable_addString c w h)
    rw [internAll] at h2 ⊢
    simp only [List.foldl_cons] at h2 ⊢
    rw [h2, addString_mem c w x h]
    constructor
    · rintro ((hx | rfl) | hx)
      · exact Or.inl hx
      · exact Or.inr (by simp)
      · exact Or.inr (by simp [hx])
    · rintro (hx | hx)
      · exact Or.inl (Or.inl hx)
      · rcases List.mem_cons.mp hx with rfl | hx
        · exact Or.inl (Or.inr rfl)
        · exact Or.inr hx

/-! ### Claim C2 -/

/-- C2: string interning is idempotent — after any prefix of interns, a
first call with `s` fixes its id: any later call with `s` (after any
further interns `mid`) returns the same id; interning a distinct string
`t` next returns a different id; and after any sequence of interns the
string-table length equals the number of distinct strings interned. -/
theorem claim_C2_intern_idempotent (pre mid : List String) (s t : String)
    (hst : s ≠ t) :
    ((addString (internAll mid
          (addString (internAll pre (NewConverter false false)) s).2) s).1
        = (addString (internAll pre (NewConverter false false)) s).1)
    ∧ ((addString (addString (internAll pre (NewConverter false false)) s).2 t).1
        ≠ (addString (internAll pre (NewConverter false false)) s).1)
    ∧ getStringID (internAll pre (NewConverter false false)) s
        = addString (internAll pre (NewConverter false false)) s
    ∧ (internAll pre (NewConverter false false)).strings.length
        = pre.dedup.length := by
  have hg0 : GoodTable (internAll pre (NewConverter false false)) :=
    goodTable_internAll pre _ (goodTable_new false false)
  set c0 := internAll pre (NewConverter false false) with hc0
  obtain ⟨i0, c1, hadd⟩ :
      ∃ i0 c1, addString c0 s = (i0, c1) := ⟨_, _, rfl⟩
  have hl1 : lookupMap c1.stringMap s = some i0 := by
    have := addString_lookup_self c0 s
    rw [hadd] at this
    exact this
  have hg1 : GoodTable c1 := by
    have := goodTable_addString c0 s hg0
    rw [hadd] at this
    exact this
  refine ⟨?_, ?_, ?_, ?_⟩
  · rw [hadd]
    exact addString_of_lookup _ s i0 (internAll_lookup_mono mid c1 s i0 hl1)
  · rw [hadd]
    simp only
    have hgets : c1.strings.get? i0 = some s := (hg1.2 s i0).mp hl1
    cases hmt : lookupMap c1.stringMap t with
    | some j =>
      rw [addString_of_lookup c1 t j hmt]
      intro hji
      subst hji
      have hgett : c1.strings.get? j = some t := (hg1.2 t j).mp hmt
      rw [hgets] at hgett
      exact hst (Option.some.inj hgett)
    | none =>
      rw [addString, hmt]
      simp only
      intro hlen
      have hi0lt : i0 < c1.strings.length := (List.get?_eq_some.mp hgets).1
      omega
  · rw [getStringID, addString]
    cases hm : lookupMap c0.stringMap s <;> simp [addString, hm]
  · have hnd : c0.strings.Nodup := hg0.1
    have hmem : ∀ x, x ∈ c0.strings ↔ x ∈ pre := by
      intro x
      rw [hc0, internAll_mem pre _ (goodTable_new false false) x]
      simp [NewConverter]
    have hfs : c0.strings.toFinset = pre.toFinset := by
      ext x
      simp only [List.mem_toFinset]
      exact hmem x
    calc c0.strings.length
        = c0.strings.toFinset.card := (List.toFinset_card_of_nodup hnd).symm
      _ = pre.toFinset.card := by rw [hfs]
      _ = pre.dedup.length := List.card_toFinset pre

/-- Witness for C2 at concrete inputs. -/
theorem claim_C2_witness :
    "ab" ≠ "cd"
      ∧ ((addString (internAll ["x"]
            (addString (internAll ["q", "ab"] (NewConverter false false)) "ab").2) "ab").1
          = (addString (internAll ["q", "ab"] (NewConverter false false)) "ab").1) :=
  ⟨by decide, (claim_C2_intern_idempotent ["q", "ab"] ["x"] "ab" "cd" (by decide)).1⟩

/-! ## Node flattening (flattenNodes, converter.go) and the
writeNodes first-child scan (C1)

`flattenNodes` is the breadth-first queue loop: dequeue a node, append
it to the output, enqueue its children.  `recordedFirstChild` is the
scan `writeNodes` performs over `c.nodes` for the entry equal to
`node.Children[0]`; Go compares pointers, which structural equality
models under the `Nodup` hypothesis of the claim (every heap node of the
walked tree is a distinct pointer and is flattened exactly once). -/

mutual

def decEqMNode : (a b : MNode) → Decidable (a = b)
  | .mk n1 t1 p1 c1, .mk n2 t2 p2 c2 =>
    match String.decEq n1 n2 with
    | isFalse h => isFalse (by intro he; injection he; contradiction)
    | isTrue hn =>
      match Nat.decEq t1 t2 with
      | isFalse h => isFalse (by intro he; injection he; contradiction)
      | isTrue ht =>
        match instDecidableEqMPayload p1 p2 with
        | isFalse h => isFalse (by intro he; injection he; contradiction)
        | isTrue hp =>
          match decEqListMNode c1 c2 with
          | isFalse h => isFalse (by intro he; injection he; contradiction)
          | isTrue hc => isTrue (by rw [hn, ht, hp, hc])

def decEqListMNode : (a b : List MNode) → Decidable (a = b)
  | [], [] => isTrue rfl
  | [], _ :: _ => isFalse (fun h => List.noConfusion h)
  | _ :: _, [] => isFalse (fun h => List.noConfusion h)
  | x :: xs, y :: ys =>
    match decEqMNode x y with
    | isFalse h => isFalse (by intro he; injection he; contradiction)
    | isTrue h1 =>
      match decEqListMNode xs ys with
      | isFalse h => isFalse (by intro he; injection he; contradiction)
      | isTrue h2 => isTrue (by rw [h1, h2])

end

instance : DecidableEq MNode := decEqMNode

mutual

def MNode.size : MNode → Nat
  | .mk _ _ _ cs => 1 + sizeListMNode cs

def sizeListMNode : List MNode → Nat
  | [] => 0
  | t :: ts => MNode.size t + sizeListMNode ts

end

def queueSize (q : List MNode) : Nat := (q.map MNode.size).sum

theorem sum_map_size_eq (cs : List MNode) :
    (cs.map MNode.size).sum = sizeListMNode cs := by
  induction cs with
  | nil => rfl
  | cons x xs ih => simp [sizeListMNode, ih]

theorem queueSize_children_lt (t : MNode) : queueSize t.children < MNode.size t := by
  cases t with
  | mk n ty p cs =>
    rw [MNode.children, queueSize, sum_map_size_eq, MNode.size]
    omega

theorem queueSize_append (a b : List MNode) :
    queueSize (a ++ b) = queueSize a + queueSize b := by
  simp [queueSize]

theorem queueSize_cons (t : MNode) (q : List MNode) :
    queueSize (t :: q) = MNode.size t + queueSize q := by
  simp [queueSize]

/-- The BFS queue loop of `flattenNodes`. -/
def flattenLoop (q : List MNode) : List MNode :=
  match q with
  | [] => []
  | t :: rest => t :: flattenLoop (rest ++ t.children)
termination_by queueSize q
decreasing_by
  rw [queueSize_append, queueSize_cons]
  have h := queueSize_children_lt t
  omega

theorem flattenLoop_nil : flattenLoop [] = [] := by
  rw [flattenLoop.eq_def]

theorem flattenLoop_cons (t : MNode) (rest : List MNode) :
    flattenLoop (t :: rest) = t :: flattenLoop (rest ++ t.children) := by
  rw [flattenLoop.eq_def]

/-- `flattenNodes` (converter.go): seed the queue with the root. -/
def flattenNodes (root : MNode) : List MNode := flattenLoop [root]

def childrenAll : List MNode → List MNode
  | [] => []
  | t :: q => t.children ++ childrenAll q

theorem flattenLoop_append (a b : List MNode) :
    flattenLoop (a ++ b) = a ++ flattenLoop (b ++ childrenAll a) := by
  induction a generalizing b with
  | nil => simp [childrenAll]
  | cons t a' ih =>
    have h1 : flattenLoop ((t :: a') ++ b)
        = t :: flattenLoop ((a' ++ b) ++ t.children) := by
      rw [List.cons_append, flattenLoop_cons]
    rw [h1, List.append_assoc a' b t.children, ih (b ++ t.children)]
    simp [childrenAll, List.append_assoc]

/-- The queue itself is a prefix of its BFS output. -/
theorem flattenLoop_queue_leads (q : List MNode) :
    flattenLoop q = q ++ flattenLoop (childrenAll q) := by
  have h := flattenLoop_append q []
  simpa using h

/-- Every node in the BFS output has its children as one contiguous
block of the output. -/
theorem flattenLoop_children_block (q : List MNode) (n : MNode)
    (hmem : n ∈ flattenLoop q) :
    ∃ f, ∀ j, j < n.children.length →
      (flattenLoop q).get? (f + j) = n.children.get? j := by
  match q with
  | [] =>
    rw [flattenLoop_nil] at hmem
    exact absurd hmem (List.not_mem_nil n)
  | t :: rest =>
    rw [flattenLoop_cons] at hmem ⊢
    rcases List.mem_cons.mp hmem with rfl | htail
    · refine ⟨1 + rest.length, fun j hj => ?_⟩
      rw [flattenLoop_queue_leads (rest ++ n.children)]
      have harith : 1 + rest.length + j = (rest.length + j) + 1 := by omega
      rw [harith, List.get?_cons_succ, List.append_assoc,
        List.get?_append_right (by omega)]
      have h2 : rest.length + j - rest.length = j := by omega
      rw [h2, List.get?_append hj]
    · obtain ⟨f, hf⟩ := flattenLoop_children_block (rest ++ t.children) n htail
      refine ⟨f + 1, fun j hj => ?_⟩
      have harith : f + 1 + j = (f + j) + 1 := by omega
      rw [harith, List.get?_cons_succ]
      exact hf j hj
termination_by queueSize q
decreasing_by
  rw [queueSize_append, queueSize_cons]
  have h := queueSize_children_lt t
  omega

/-- The scan in `writeNodes` locating the index of a node's first child
in `c.nodes` (`for i, n := range c.nodes { if n == node.Children[0] ... }`). -/
def scanIndex : List MNode → MNode → Nat → Option Nat
  | [], _, _ => none
  | n :: rest, target, i =>
    if n = target then some i else scanIndex rest target (i + 1)

/-- `firstChild` as recorded by `writeNodes`: 0 for a childless node,
else the index found by the scan (0 if the scan finds nothing, matching
the Go variable's zero initialisation). -/
def recordedFirstChild (nodes : List MNode) (n : MNode) : Nat :=
  match n.children with
  | [] => 0
  | c :: _ => (scanIndex nodes c 0).getD 0

theorem scanIndex_of_nodup (l : List MNode) (t : MNode) (i f : Nat)
    (hnd : l.Nodup) (hget : l.get? f = some t) :
    scanIndex l t i = some (i + f) := by
  induction l generalizing i f with
  | nil => exact absurd hget (by simp)
  | cons x xs ih =>
    match f, hget with
    | 0, hget =>
      rw [List.get?_cons_zero] at hget
      cases Option.some.inj hget
      rw [scanIndex, if_pos rfl]
      simp
    | f + 1, hget =>
      rw [List.get?_cons_succ] at hget
      have hxt : x ≠ t := by
        intro h
        subst h
        exact (List.nodup_cons.mp hnd).1 (List.get?_mem hget)
      rw [scanIndex, if_neg hxt, ih (i + 1) f (List.nodup_cons.mp hnd).2 hget]
      congr 1
      omega

/-- C1: after `flattenNodes` runs on the root, the flattened array has
the root at index 0, and every flattened node's children occupy the
contiguous half-open range `[firstChildIndex, firstChildIndex +
childCount)`, where `firstChildIndex` is the first-child index recorded
by `writeNodes`' scan.  The `Nodup` hypothesis models Go pointer
identity: distinct heap nodes are structurally distinguishable. -/
theorem claim_C1_flatten_contiguity (root : MNode)
    (hnd : (flattenNodes root).Nodup) :
    (flattenNodes root).get? 0 = some root ∧
    ∀ n ∈ flattenNodes root, ∀ j, j < n.children.length →
      (flattenNodes root).get? (recordedFirstChild (flattenNodes root) n + j)
        = n.children.get? j := by
  constructor
  · rw [flattenNodes, flattenLoop_cons]
    rfl
  · intro n hmem j hj
    obtain ⟨f, hf⟩ := flattenLoop_children_block [root] n hmem
    match hch : n.children, hj with
    | c :: cs, hj =>
      have hc0 : (flattenNodes root).get? f = some c := by
        have h0 := hf 0 (by rw [hch]; simp)
        rw [hch] at h0
        simpa [flattenNodes] using h0
      have hscan : scanIndex (flattenNodes root) c 0 = some f := by
        have h := scanIndex_of_nodup (flattenNodes root) c 0 f hnd hc0
        simpa using h
      have hrec : recordedFirstChild (flattenNodes root) n = f := by
        rw [recordedFirstChild, hch]
        show (scanIndex (flattenNodes root) c 0).getD 0 = f
        rw [hscan]
        rfl
      rw [hrec]
      have h2 := hf j (by rw [hch]; exact hj)
      rw [hch] at h2
      simpa [flattenNodes] using h2

/-- Concrete tree for the C1 witness. -/
def wnodeC : MNode := .mk "c" 0 .pnil []

def wnodeA : MNode := .mk "a" 1 (.pint 42) [wnodeC]

def wnodeB : MNode := .mk "b" 3 (.pstr "hello") []

def wroot : MNode := .mk "" 0 .pnil [wnodeA, wnodeB]

/-- Witness for C1: on the concrete 4-node tree the flattened array has
the root at index 0 and the root's children at the recorded range. -/
theorem claim_C1_witness :
    (flattenNodes wroot).get? 0 = some wroot ∧
    (flattenNodes wroot).get? (recordedFirstChild (flattenNodes wroot) wroot + 1)
      = some wnodeB := by
  have hflat : flattenNodes wroot = [wroot, wnodeA, wnodeB, wnodeC] := by
    simp only [flattenNodes]
    rw [flattenLoop_cons]
    simp only [MNode.children, wroot, List.nil_append]
    rw [flattenLoop_cons]
    simp only [MNode.children, wnodeA, List.cons_append, List.nil_append]
    rw [flattenLoop_cons]
    simp only [MNode.children, wnodeB, List.cons_append, List.nil_append]
    rw [flattenLoop_cons]
    simp only [MNode.children, wnodeC, List.nil_append]
    rw [flattenLoop_nil]
  have hnd : (flattenNodes wroot).Nodup := by
    rw [hflat]
    simp [wroot, wnodeA, wnodeB, wnodeC]
  have h := claim_C1_flatten_contiguity wroot hnd
  refine ⟨h.1, ?_⟩
  have h2 := h.2 wroot (by rw [hflat]; simp) 1 (by simp [wroot, MNode.children])
  rw [h2]
  simp [wroot, MNode.children]

/-! ## Bitmap compression pool (compressBitmapsParallel, converter.go)

The pool fans out one worker per not-yet-compressed, non-empty record;
each record's compressed bytes are written only by the worker owning its
index, and errors are collected after the join.  That makes the result
deterministic per index, which this sequential model captures.  The LZ4
codec (`compressLZ4`/`compressLZ4HC`, an external library) is a
parameter `compress`, standing for `c.compressData`. -/

/-- The work done for one record: the skip test
`len(CompressedData) > 0 || len(Data) == 0` and otherwise compression. -/
def compressRecord (compress : List Nat → Except String (List Nat))
    (b : MBitmapData) : Except String MBitmapData :=
  if 0 < b.compressedData.length ∨ b.data.length = 0 then .ok b
  else
    match compress b.data with
    | .error e => .error e
    | .ok cd => .ok { b with compressedData := cd }

/-- `compressBitmapsParallel`: every record is processed independently;
any worker error fails the batch. -/
def compressBitmapsParallel
    (compress : List Nat → Except String (List Nat)) :
    List MBitmapData → Except String (List MBitmapData)
  | [] => .ok []
  | b :: rest =>
    match compressRecord compress b, compressBitmapsParallel compress rest with
    | .error e, _ => .error e
    | .ok _, .error e => .error e
    | .ok b2, .ok rest2 => .ok (b2 :: rest2)

/-- Per-record case analysis of `compressRecord` on success. -/
theorem compressRecord_ok (compress : List Nat → Except String (List Nat))
    (b b2 : MBitmapData) (h : compressRecord compress b = .ok b2) :
    (b.data ≠ [] → b.compressedData = [] →
      ∃ cd, compress b.data = .ok cd ∧ b2 = { b with compressedData := cd }) ∧
    (b.compressedData ≠ [] → b2 = b) ∧
    (b.data = [] → b2 = b) := by
  rw [compressRecord] at h
  by_cases hskip : 0 < b.compressedData.length ∨ b.data.length = 0
  · rw [if_pos hskip] at h
    cases Except.ok.inj h
    refine ⟨?_, fun _ => rfl, fun _ => rfl⟩
    intro hd hc
    rcases hskip with h1 | h1
    · rw [hc] at h1
      exact absurd h1 (by simp)
    · exact absurd (List.length_eq_zero.mp h1) hd
  · rw [if_neg hskip] at h
    push_neg at hskip
    cases hcmp : compress b.data with
    | error e =>
      rw [hcmp] at h
      exact Except.noConfusion h
    | ok cd =>
      rw [hcmp] at h
      cases Except.ok.inj h
      refine ⟨fun _ _ => ⟨cd, rfl, rfl⟩, ?_, ?_⟩
      · intro hc
        exact absurd (List.length_eq_zero.mp (by omega)) hc
      · intro hd
        rw [hd] at hskip
        simp at hskip

/-- C6: when the pool completes without error, every record that had
non-empty raw data and no compressed data has non-empty compressed data
(given that the codec produces non-empty output on non-empty input, as
LZ4 framing does); every already-compressed record is returned
byte-identical; and every record with empty raw data is untouched and
causes no error. -/
theorem claim_C6_compression_pool
    (compress : List Nat → Except String (List Nat))
    (hne : ∀ d, d ≠ [] → ∀ out, compress d = .ok out → out ≠ [])
    (recs recs2 : List MBitmapData)
    (hok : compressBitmapsParallel compress recs = .ok recs2) :
    recs2.length = recs.length ∧
    (∀ i b b2, recs.get? i = some b → recs2.get? i = some b2 →
      (b.data ≠ [] → b.compressedData = [] → b2.compressedData ≠ []) ∧
      (b.compressedData ≠ [] → b2 = b) ∧
      (b.data = [] → b2 = b)) ∧
    (∀ b : MBitmapData, b.data = [] → compressRecord compress b = .ok b) := by
  refine ⟨?_, ?_, ?_⟩
  · clear hne
    induction recs generalizing recs2 with
    | nil =>
      rw [compressBitmapsParallel] at hok
      cases hok
      rfl
    | cons b rest ih =>
      rw [compressBitmapsParallel] at hok
      cases hcr : compressRecord compress b with
      | error e => rw [hcr] at hok; exact Except.noConfusion hok
      | ok b2 =>
        rw [hcr] at hok
        cases hrest : compressBitmapsParallel compress rest with
        | error e => rw [hrest] at hok; exact Except.noConfusion hok
        | ok rest2 =>
          rw [hrest] at hok
          cases hok
          simpa using ih rest2 hrest
  · induction recs generalizing recs2 with
    | nil =>
      intro i b b2 hb
      exact absurd hb (by simp)
    | cons r rest ih =>
      rw [compressBitmapsParallel] at hok
      cases hcr : compressRecord compress r with
      | error e => rw [hcr] at hok; exact Except.noConfusion hok
      | ok r2 =>
        rw [hcr] at hok
        cases hrest : compressBitmapsParallel compress rest with
        | error e => rw [hrest] at hok; exact Except.noConfusion hok
        | ok rest2 =>
          rw [hrest] at hok
          cases hok
          intro i b b2 hb hb2
          match i, hb, hb2 with
          | 0, hb, hb2 =>
            rw [List.get?_cons_zero] at hb hb2
            have hbr : b = r := (Option.some.inj hb).symm
            have hb2r : b2 = r2 := (Option.some.inj hb2).symm
            subst hbr
            subst hb2r
            obtain ⟨hfresh, hdone, hempty⟩ := compressRecord_ok compress b b2 hcr
            refine ⟨?_, hdone, hempty⟩
            intro hd hc
            obtain ⟨cd, hcd, hb2eq⟩ := hfresh hd hc
            rw [hb2eq]
            simpa using hne b.data hd cd hcd
          | i + 1, hb, hb2 =>
            rw [List.get?_cons_succ] at hb hb2
            exact ih rest2 hrest i b b2 hb hb2
  · intro b hd
    rw [compressRecord, if_pos (Or.inr (by simp [hd]))]

def cwCompress (d : List Nat) : Except String (List Nat) := .ok (4 :: d)

def cwFresh : MBitmapData := ⟨2, 2, [1, 2], [], 0⟩

def cwDone : MBitmapData := ⟨1, 1, [5], [9], 0⟩

def cwEmpty : MBitmapData := ⟨0, 0, [], [], 0⟩

/-- Witness for C6 on a batch with a fresh, an already-compressed and an
empty record. -/
theorem claim_C6_witness :
    compressBitmapsParallel cwCompress [cwFresh, cwDone, cwEmpty]
        = .ok [⟨2, 2, [1, 2], [4, 1, 2], 0⟩, cwDone, cwEmpty]
      ∧ (⟨2, 2, [1, 2], [4, 1, 2], 0⟩ : MBitmapData).compressedData ≠ [] := by
  have hne : ∀ d, d ≠ [] → ∀ out, cwCompress d = .ok out → out ≠ [] := by
    intro d _ out h
    rw [cwCompress] at h
    cases Except.ok.inj h
    simp
  refine ⟨rfl, ?_⟩
  exact ((claim_C6_compression_pool cwCompress hne [cwFresh, cwDone, cwEmpty]
      [⟨2, 2, [1, 2], [4, 1, 2], 0⟩, cwDone, cwEmpty] rfl).2.1 0 cwFresh
      ⟨2, 2, [1, 2], [4, 1, 2], 0⟩ rfl rfl).1 (by simp [cwFresh]) (by simp [cwFresh])

/-! ## Version recovery (determineVersion / isParsableWithVersion,
wz package, source shown in src/wz/README.md)

The brute-force loop `for { realVersion++; ... }` is modelled with an
explicit fuel argument: one fuel unit per iteration, `none` meaning the
loop is still running after that many iterations (the Go loop has no
exit other than trial success).  `realVersion` is a Go `uint16`, so the
increment wraps at 65536.  `calcHash v` stands for `calculateHash(v)`
(returning `(calcVersion, calcHash)`; a crypto helper whose file is not
in src/), and `trial v` stands for the outcome of the trial parse of the
root directory under candidate `v`: either a parsed directory or a
panic (malformed data, truncated read, invariant violation). -/

inductive TrialOutcome (Dir : Type) where
  | ok (dir : Dir)
  | panicked (reason : String)

/-- `isParsableWithVersion`: the trial parse runs inside a
defer/recover boundary, so a panic is recovered into `nil` (here
`none`) instead of aborting the process. -/
def isParsableWithVersion {Dir : Type} (t : TrialOutcome Dir) : Option Dir :=
  match t with
  | .ok dir => some dir
  | .panicked _ => none

/-- `determineVersion`: on a bit-match of `calcVersion` against the
stored encrypted marker, run the recoverable trial; success returns the
candidate, its derived hash (committed to `m.versionHash`) and the
parsed root (kept as `m.Root`); failure resumes at the next candidate. -/
def determineVersionFuel {Dir : Type} (calcHash : Nat → Nat × Nat)
    (trial : Nat → TrialOutcome Dir) (encryptedVersion : Nat) :
    Nat → Nat → Option (Nat × Nat × Dir)
  | 0, _ => none
  | fuel + 1, realVersion =>
    let rv := (realVersion + 1) % 65536
    if (calcHash rv).1 = encryptedVersion then
      match isParsableWithVersion (trial rv) with
      | some dir => some (rv, (calcHash rv).2, dir)
      | none => determineVersionFuel calcHash trial encryptedVersion fuel rv
    else determineVersionFuel calcHash trial encryptedVersion fuel rv

/-- C4: during version recovery, a bit-matching candidate whose trial
parse panics aborts only that trial: the search continues at the next
candidate with the process alive; a bit-matching candidate whose trial
parse succeeds ends the search with that candidate's derived hash
committed as `versionHash` and the parsed root directory kept. -/
theorem claim_C4_trial_recovery {Dir : Type} (calcHash : Nat → Nat × Nat)
    (trial : Nat → TrialOutcome Dir) (enc fuel rv : Nat)
    (hmatch : (calcHash ((rv + 1) % 65536)).1 = enc) :
    (∀ reason, trial ((rv + 1) % 65536) = .panicked reason →
      determineVersionFuel calcHash trial enc (fuel + 1) rv
        = determineVersionFuel calcHash trial enc fuel ((rv + 1) % 65536)) ∧
    (∀ dir, trial ((rv + 1) % 65536) = .ok dir →
      determineVersionFuel calcHash trial enc (fuel + 1) rv
        = some ((rv + 1) % 65536, (calcHash ((rv + 1) % 65536)).2, dir)) := by
  constructor
  · intro reason htrial
    simp only [determineVersionFuel, hmatch, if_true, htrial, isParsableWithVersion]
  · intro dir htrial
    simp only [determineVersionFuel, hmatch, if_true, htrial, isParsableWithVersion]

/-- C5: the search has no hard upper bound and no failure result: a
returned value is always a successful candidate (its `calcVersion`
matches the marker and its trial parse succeeded, and the committed
hash is that candidate's derived hash); and when no candidate ever
passes, the loop is still running after every finite number of
iterations — it never terminates, and in particular never produces a
`VersionNotFound`-style failure (the result type has no such value). -/
theorem claim_C5_unbounded_search {Dir : Type} (calcHash : Nat → Nat × Nat)
    (trial : Nat → TrialOutcome Dir) (enc : Nat) :
    (∀ fuel rv v h dir,
      determineVersionFuel calcHash trial enc fuel rv = some (v, h, dir) →
        (calcHash v).1 = enc ∧ trial v = .ok dir ∧ h = (calcHash v).2) ∧
    ((∀ v, (calcHash v).1 = enc → ∀ dir, trial v ≠ .ok dir) →
      ∀ fuel rv, determineVersionFuel calcHash trial enc fuel rv = none) := by
  constructor
  · intro fuel
    induction fuel with
    | zero =>
      intro rv v h dir hres
      exact Option.noConfusion hres
    | succ fuel ih =>
      intro rv v h dir hres
      simp only [determineVersionFuel] at hres
      by_cases hc : (calcHash ((rv + 1) % 65536)).1 = enc
      · rw [if_pos hc] at hres
        cases htr : trial ((rv + 1) % 65536) with
        | ok dir2 =>
          rw [htr] at hres
          simp only [isParsableWithVersion, Option.some.injEq, Prod.mk.injEq] at hres
          obtain ⟨rfl, rfl, rfl⟩ := hres
          exact ⟨hc, htr, rfl⟩
        | panicked r =>
          rw [htr] at hres
          simp only [isParsableWithVersion] at hres
          exact ih _ v h dir hres
      · rw [if_neg hc] at hres
        exact ih _ v h dir hres
  · intro hnone fuel
    induction fuel with
    | zero =>
      intro rv
      rfl
    | succ fuel ih =>
      intro rv
      simp only [determineVersionFuel]
      by_cases hc : (calcHash ((rv + 1) % 65536)).1 = enc
      · rw [if_pos hc]
        cases htr : trial ((rv + 1) % 65536) with
        | ok dir => exact absurd htr (hnone _ hc dir)
        | panicked r =>
          simp only [isParsableWithVersion]
          exact ih _
      · rw [if_neg hc]
        exact ih _

def c4calc (v : Nat) : Nat × Nat := (0, v)

def c4trial (_ : Nat) : TrialOutcome Nat := .ok 42

/-- Witness for C4: with a marker every candidate matches and a trial
that succeeds immediately, one step commits candidate 1, hash 1, root 42. -/
theorem claim_C4_witness :
    determineVersionFuel c4calc c4trial 0 1 0 = some (1, 1, 42) :=
  (claim_C4_trial_recovery c4calc c4trial 0 0 0 rfl).2 42 rfl

def c5calc (v : Nat) : Nat × Nat := (v % 2, v)

def c5trial (_ : Nat) : TrialOutcome Nat := .panicked "invariant violation"

/-- Witness for C5: a marker (7) no candidate's `calcVersion` can ever
equal leaves the search still running after any number of steps. -/
theorem claim_C5_witness :
    determineVersionFuel c5calc c5trial 7 5 0 = none := by
  refine (claim_C5_unbounded_search c5calc c5trial 7).2 ?_ 5 0
  intro v hv dir htr
  simp [c5calc] at hv
  omega

/-! ## Canvas pixel processing (processCanvasData / extractCanvasData) -/

/-- `processCanvasData` (image.go): dispatch on `format1`; DXT3 (1026),
DXT5 (2050) and unknown formats yield a zero-filled buffer; `format2 = 4`
applies 16× nearest-neighbour upscaling. -/
def processCanvasData (width height format1 format2 : Int)
    (data : List Nat) : Except String (List Nat) :=
  if width ≤ 0 ∨ height ≤ 0 then .error "invalid canvas dimensions"
  else
    let w := width.toNat
    let h := height.toNat
    let processed :=
      if format1 = 1 then convertARGB4444 data w h
      else if format1 = 2 then convertARGB8888 data w h
      else if format1 = 513 then convertRGB565 data w h
      else List.replicate (w * h * 4) 0
    if format2 = 4 then .ok (scaleImage processed w h 16)
    else .ok processed

/-- `extractCanvasData` (wzparser.go): empty raw data yields nil, and a
processing error is logged as a warning and yields nil. -/
def extractCanvasData (width height format1 format2 : Int)
    (data : List Nat) : List Nat :=
  if data.length = 0 then []
  else
    match processCanvasData width height format1 format2 data with
    | .error _ => []
    | .ok processed => processed

/-! ## Tree walker (wzparser.go)

The WZ-side values are one nested inductive `WZVal`: the non-object
variant payloads (`vi16`…`vstr` model the dynamic types behind
`variant.Value`) and the objects dispatched by `traverseWZObject`.
A property list entry is `(name, variant.Type, variant.Value)` in the
recorded `Order`.  The walker threads the converter's mutable
collections (`bitmaps`, `audio`) as `WState`; `client` and `hc` are
fields of the receiver that nothing ever writes, so they are fixed
parameters.  Float widening (`float64(val)` on a float32) is modelled
as carrying the payload token unchanged; no claim depends on float
values. -/

inductive WZVal where
  | vnone
  | vi16 (v : Int)
  | vi32 (v : Int)
  | vi64 (v : Int)
  | vf32 (bits : Nat)
  | vf64 (bits : Nat)
  | vstr (s : String)
  | vcanvas (width height format1 format2 : Int) (magLevel : Nat)
      (props : List (String × Nat × WZVal)) (data : List Nat)
  | vvector (x y : Int)
  | vsound (soundData : List Nat)
  | vprop (props : List (String × Nat × WZVal))
  | vuol
  | vother

structure WState where
  bitmaps : List MBitmapData
  audio : List MAudioData

def MNode.withTy (n : MNode) (t : Nat) : MNode :=
  .mk n.name t n.payload n.children

def MNode.withTyPayload (n : MNode) (t : Nat) (p : MPayload) : MNode :=
  .mk n.name t p n.children

def MNode.addChild (n : MNode) (child : MNode) : MNode :=
  .mk n.name n.ty n.payload (n.children ++ [child])

mutual

def sizeWZVal : WZVal → Nat
  | .vcanvas _ _ _ _ _ props _ => 1 + sizeWZProps props
  | .vprop props => 1 + sizeWZProps props
  | _ => 1

def sizeWZProps : List (String × Nat × WZVal) → Nat
  | [] => 0
  | (_, _, v) :: rest => 1 + sizeWZVal v + sizeWZProps rest

end

/-- `traverseWZSound` (wzparser.go): append an audio record and make the
node an AudioRef. -/
def traverseWZSound (soundData : List Nat) (node : MNode) (st : WState) :
    MNode × WState :=
  let audioID := st.audio.length
  let len := soundData.length % 2 ^ 32
  (node.withTyPayload NodeTypeAudio (.paudio audioID len),
   { st with audio := st.audio ++ [⟨len, soundData, [], 0⟩] })

mutual

/-- `traverseWZVariant` (wzparser.go): create a child node, fill it by
the variant's type tag (a failed type assertion leaves `Data` nil in Go,
modelled by `pnil`), and append it to the parent's children. -/
def traverseWZVariant (client : Bool) (name : String) (vtag : Nat)
    (v : WZVal) (parent : MNode) (st : WState) : MNode × WState :=
  let start : MNode := .mk name 0 .pnil []
  let res : MNode × WState :=
    match vtag with
    | 0 => (.mk name NodeTypeNone .pnil [], st)
    | 2 | 11 =>
      (.mk name NodeTypeInt64
        (match v with | .vi16 n => .pint n | _ => .pnil) [], st)
    | 3 | 19 =>
      (.mk name NodeTypeInt64
        (match v with | .vi32 n => .pint n | _ => .pnil) [], st)
    | 20 =>
      (.mk name NodeTypeInt64
        (match v with | .vi64 n => .pint n | _ => .pnil) [], st)
    | 4 =>
      (.mk name NodeTypeDouble
        (match v with | .vf32 b => .pfloat b | _ => .pnil) [], st)
    | 5 =>
      (.mk name NodeTypeDouble
        (match v with | .vf64 b => .pfloat b | _ => .pnil) [], st)
    | 8 =>
      (.mk name NodeTypeString
        (match v with | .vstr s => .pstr s | _ => .pnil) [], st)
    | 9 => traverseWZObject client v start st
    | _ => (.mk name NodeTypeNone .pnil [], st)
  (parent.addChild res.1, res.2)
termination_by 2 * sizeWZVal v + 1
decreasing_by simp [sizeWZVal, sizeWZProps]

/-- `traverseWZObject` (wzparser.go): dispatch on the object's dynamic
type; in server mode a Sound becomes a None node with no audio record;
UOL and unknown objects become None nodes. -/
def traverseWZObject (client : Bool) (v : WZVal) (node : MNode)
    (st : WState) : MNode × WState :=
  match v with
  | .vcanvas w h f1 f2 mag props data =>
    traverseWZCanvas client w h f1 f2 mag props data node st
  | .vvector x y => (node.withTyPayload NodeTypePOINT (.ppoint x y), st)
  | .vsound sd =>
    if client then traverseWZSound sd node st
    else (node.withTy NodeTypeNone, st)
  | .vprop props => traverseProps client props (node.withTy NodeTypeNone) st
  | _ => (node.withTy NodeTypeNone, st)
termination_by 2 * sizeWZVal v
decreasing_by all_goals simp [sizeWZVal, sizeWZProps] <;> omega

/-- `traverseWZCanvas` (wzparser.go): process the canvas properties
first, then make the node a BitmapRef (appending a bitmap record) only
when client mode is on and width>0 and height>0, else a None node. -/
def traverseWZCanvas (client : Bool) (w h f1 f2 : Int) (mag : Nat)
    (props : List (String × Nat × WZVal)) (data : List Nat)
    (node : MNode) (st : WState) : MNode × WState :=
  let res := traverseProps client props node st
  let node1 := res.1
  let st1 := res.2
  if client = true ∧ 0 < w ∧ 0 < h then
    let bitmapID := st1.bitmaps.length
    let width := w.toNat % 2 ^ 16
    let height := h.toNat % 2 ^ 16
    (node1.withTyPayload NodeTypeBitmap (.pbitmap bitmapID width height),
     { st1 with bitmaps :=
        st1.bitmaps ++ [⟨width, height, extractCanvasData w h f1 f2 data, [], 0⟩] })
  else
    (node1.withTy NodeTypeNone, st1)
termination_by 2 * sizeWZProps props + 1
decreasing_by simp [sizeWZVal, sizeWZProps]

/-- The ordered property iteration shared by image, property and canvas
traversal (`for _, name := range Order`). -/
def traverseProps (client : Bool) (props : List (String × Nat × WZVal))
    (node : MNode) (st : WState) : MNode × WState :=
  match props with
  | [] => (node, st)
  | (name, vtag, v) :: rest =>
    let res := traverseWZVariant client name vtag v node st
    traverseProps client rest res.1 res.2
termination_by 2 * sizeWZProps props
decreasing_by all_goals simp [sizeWZVal, sizeWZProps] <;> omega

end

/-- C3: with server mode active (client mode off, per main.go server
forces `client=false`), every walked Sound object is converted to a None
node and no audio record is appended; and every walked Canvas object is
converted to a BitmapRef node exactly when client mode is active and its
width and height are positive, otherwise to a None node. -/
theorem claim_C3_mode_filtering (client : Bool) (node : MNode) (st : WState)
    (sd : List Nat) (w h f1 f2 : Int) (mag : Nat)
    (props : List (String × Nat × WZVal)) (data : List Nat) :
    ((traverseWZObject false (.vsound sd) node st).1.ty = NodeTypeNone
      ∧ (traverseWZObject false (.vsound sd) node st).2.audio = st.audio) ∧
    ((traverseWZObject client (.vcanvas w h f1 f2 mag props data) node st).1.ty
      = if client = true ∧ 0 < w ∧ 0 < h then NodeTypeBitmap
        else NodeTypeNone) := by
  refine ⟨⟨?_, ?_⟩, ?_⟩
  · simp [traverseWZObject, MNode.withTy, MNode.ty]
  · simp [traverseWZObject]
  · simp only [traverseWZObject, traverseWZCanvas]
    by_cases hc : client = true ∧ 0 < w ∧ 0 < h
    · rw [if_pos hc, if_pos hc]
      simp [MNode.withTyPayload, MNode.ty]
    · rw [if_neg hc, if_neg hc]
      simp [MNode.withTy, MNode.ty]

/-! ## WZCanvas.Parse (src/unnamed/part_002) and the byte cursor

The cursor (`WZFileBlob` with `readByte`, `skip`, `readInt32`,
`readWZInt`, `readBytes`) is implemented in a file of this repository's
wz package that is not under src/, so its primitives are modelled from
the spec (§4.1, §4.3); `WZCanvas.Parse` itself is transcribed from the
source. -/

structure WZFileBlob where
  bytes : List Nat
  p : Nat

/-- Modelled from the spec: the cursor primitive `readByte` — read one
byte, advance; insufficient bytes fail (`FormatError::Truncated`, a Go
read panic recovered at the trial boundary). -/
def blobReadByte (b : WZFileBlob) : Except String (Nat × WZFileBlob) :=
  if h : b.p < b.bytes.length then
    .ok (b.bytes.get ⟨b.p, h⟩, ⟨b.bytes, b.p + 1⟩)
  else .error "Truncated"

/-- Modelled from the spec: `skip(n)` advances the cursor. -/
def blobSkip (b : WZFileBlob) (n : Nat) : WZFileBlob :=
  ⟨b.bytes, b.p + n⟩

/-- Modelled from the spec: `readInt32` — 4 little-endian bytes as a
signed 32-bit integer. -/
def blobReadInt32 (b : WZFileBlob) : Except String (Int × WZFileBlob) := do
  let (b0, b) ← blobReadByte b
  let (b1, b) ← blobReadByte b
  let (b2, b) ← blobReadByte b
  let (b3, b) ← blobReadByte b
  let v : Nat := b0 + 256 * b1 + 65536 * b2 + 16777216 * b3
  .ok (if v < 2 ^ 31 then (v : Int) else (v : Int) - 2 ^ 32, b)

/-- Modelled from the spec: the archive's variable-length signed int
(`readWZInt`) — one signed byte, the value −128 marking a full
little-endian int32 payload. -/
def blobReadWZInt (b : WZFileBlob) : Except String (Int × WZFileBlob) := do
  let (s, b) ← blobReadByte b
  let sv : Int := if s < 128 then (s : Int) else (s : Int) - 256
  if sv = -128 then blobReadInt32 b
  else .ok (sv, b)

/-- Modelled from the spec: `readBytes(n)`; a negative or overlong
request fails as truncated. -/
def blobReadBytes (b : WZFileBlob) (n : Int) :
    Except String (List Nat × WZFileBlob) :=
  if n < 0 then .error "Truncated"
  else if b.p + n.toNat ≤ b.bytes.length then
    .ok ((b.bytes.drop b.p).take n.toNat, ⟨b.bytes, b.p + n.toNat⟩)
  else .error "Truncated"

structure WZCanvasParsed where
  width : Int
  height : Int
  format : Int
  format1 : Int
  format2 : Int
  magLevel : Nat
  data : List Nat

/-- `WZCanvas.Parse` up to and including the width/height reads: skip
one byte, read the property present-flag, optionally parse the embedded
property block (`parseProp` abstracts `ParseProperty`; its parsed
content is irrelevant to the dimension check), then the two
archive-ints. -/
def wzCanvasParseHeader (parseProp : WZFileBlob → Except String WZFileBlob)
    (b : WZFileBlob) : Except String (Int × Int × WZFileBlob) := do
  let b := blobSkip b 1
  let (flag, b) ← blobReadByte b
  let b ← if flag = 1 then parseProp b else .ok b
  let (width, b) ← blobReadWZInt b
  let (height, b) ← blobReadWZInt b
  .ok (width, height, b)

/-- `WZCanvas.Parse` (src/unnamed/part_002): after width and height, a
value ≥ 0x10000 panics (`.error`) before the format, mag level, zero
marker and payload are read; otherwise the remaining fields and the
length-prefixed payload (length − 1 bytes after a skipped byte) build
the canvas. -/
def wzCanvasParse (parseProp : WZFileBlob → Except String WZFileBlob)
    (b : WZFileBlob) : Except String (WZCanvasParsed × WZFileBlob) := do
  let (width, height, b) ← wzCanvasParseHeader parseProp b
  if width ≥ 65536 ∨ height ≥ 65536 then
    .error "File corrupt? Width and/or Height is too big."
  else do
    let (format, b) ← blobReadWZInt b
    let format1 := format.emod 65536
    let format2 := (format.fdiv 65536).emod 65536
    let (mag, b) ← blobReadByte b
    let (zero, b) ← blobReadInt32 b
    if zero ≠ 0 then .error "4 bytes must equal zero."
    else do
      let (len, b) ← blobReadInt32 b
      let b := blobSkip b 1
      let (dat, b) ← blobReadBytes b (len - 1)
      .ok (⟨width, height, format, format1, format2, mag, dat⟩, b)

/-- C8: whenever the header reads yield a width or height ≥ 65536, the
whole parse is the corruption error: by the monadic structure nothing
after the check runs (format, mag level and payload are never read) and
no canvas value is constructed. -/
theorem claim_C8_canvas_rejects_corrupt_dims
    (parseProp : WZFileBlob → Except String WZFileBlob)
    (b b2 : WZFileBlob) (w h : Int)
    (hhead : wzCanvasParseHeader parseProp b = .ok (w, h, b2))
    (hbig : w ≥ 65536 ∨ h ≥ 65536) :
    wzCanvasParse parseProp b
      = .error "File corrupt? Width and/or Height is too big." := by
  rw [wzCanvasParse, hhead]
  show (if w ≥ 65536 ∨ h ≥ 65536 then _ else _ : Except String _) = _
  rw [if_pos hbig]

/-- Witness for C8: a concrete byte stream decoding width 65536 and
height 1 (no property block). -/
theorem claim_C8_witness :
    wzCanvasParse (fun _ => .error "unused")
        ⟨[0, 0, 0x80, 0, 0, 1, 0, 1, 9, 9], 0⟩
      = .error "File corrupt? Width and/or Height is too big." :=
  claim_C8_canvas_rejects_corrupt_dims (fun _ => .error "unused")
    ⟨[0, 0, 0x80, 0, 0, 1, 0, 1, 9, 9], 0⟩
    ⟨[0, 0, 0x80, 0, 0, 1, 0, 1, 9, 9], 8⟩ 65536 1 (by rfl)
    (Or.inl (by norm_num))

/-! ## Byte sink for the two-phase writer (src/unnamed/part_003)

The NX output file is a byte list with a write position; `writeB` writes
at the position (overwriting, extending at the end), `seekTo` models
`Seek(.., io.SeekStart)`.  `encodeLE k n` is `binary.Write(...,
binary.LittleEndian, ...)` of a `k`-byte integer; `readLE` reads one
back. -/

def encodeLE : Nat → Nat → List Nat
  | 0, _ => []
  | k + 1, n => n % 256 :: encodeLE k (n / 256)

def readLE : Nat → List Nat → Nat → Nat
  | 0, _, _ => 0
  | k + 1, data, off => data.getD off 0 + 256 * readLE k data (off + 1)

def patchBytes (data : List Nat) (off : Nat) (bs : List Nat) : List Nat :=
  data.take off ++ bs ++ data.drop (off + bs.length)

structure Sink where
  data : List Nat
  pos : Nat

def initSink : Sink := ⟨[], 0⟩

def writeB (s : Sink) (bs : List Nat) : Sink :=
  ⟨patchBytes s.data s.pos bs, s.pos + bs.length⟩

def seekTo (s : Sink) (off : Nat) : Sink := ⟨s.data, off⟩

/-- The writer's phase-1 invariant: the position is at the end. -/
def AtEnd (s : Sink) : Prop := s.pos = s.data.length

theorem encodeLE_length (k n : Nat) : (encodeLE k n).length = k := by
  induction k generalizing n with
  | zero => rfl
  | succ k ih => simp [encodeLE, ih]

theorem patchBytes_at_end (d : List Nat) (bs : List Nat) :
    patchBytes d d.length bs = d ++ bs := by
  rw [patchBytes, List.take_length, List.drop_eq_nil_of_le (by omega),
    List.append_nil]

theorem writeB_atEnd (s : Sink) (bs : List Nat) (h : AtEnd s) :
    writeB s bs = ⟨s.data ++ bs, s.pos + bs.length⟩ ∧ AtEnd (writeB s bs) := by
  rw [AtEnd] at h
  constructor
  · rw [writeB, h, patchBytes_at_end]
  · rw [AtEnd, writeB, h, patchBytes_at_end]
    simp

theorem writeB_pos (s : Sink) (bs : List Nat) :
    (writeB s bs).pos = s.pos + bs.length := rfl

theorem writeB_atEnd_atEnd (s : Sink) (bs : List Nat) (h : AtEnd s) :
    AtEnd (writeB s bs) := (writeB_atEnd s bs h).2

theorem readLE_append_right (k : Nat) (pre l : List Nat) (m : Nat) :
    readLE k (pre ++ l) (pre.length + m) = readLE k l m := by
  induction k generalizing m with
  | zero => rfl
  | succ k ih =>
    rw [readLE, readLE, List.getD_append_right _ _ _ _ (by omega)]
    have h1 : pre.length + m - pre.length = m := by omega
    have h2 : pre.length + m + 1 = pre.length + (m + 1) := by omega
    rw [h1, h2, ih]

theorem readLE_encode (k n : Nat) (rest : List Nat) :
    readLE k (encodeLE k n ++ rest) 0 = n % 256 ^ k := by
  induction k generalizing n with
  | zero =>
    simp only [readLE, pow_zero, Nat.mod_one]
  | succ k ih =>
    rw [encodeLE, readLE]
    have h0 : ((n % 256 :: encodeLE k (n / 256)) ++ rest).getD 0 0 = n % 256 := rfl
    have h1 : (n % 256 :: encodeLE k (n / 256)) ++ rest
        = [n % 256] ++ (encodeLE k (n / 256) ++ rest) := by simp
    rw [h0, h1]
    have h2 : (0 : Nat) + 1 = [n % 256].length + 0 := rfl
    rw [h2, readLE_append_right, ih]
    have h3 : (256 : Nat) ^ (k + 1) = 256 * 256 ^ k := by ring
    rw [h3, Nat.mod_mul]

theorem readLE_concat_at (k n off : Nat) (pre rest : List Nat)
    (hoff : pre.length = off) :
    readLE k (pre ++ (encodeLE k n ++ rest)) off = n % 256 ^ k := by
  subst hoff
  have h : pre.length = pre.length + 0 := rfl
  rw [h, readLE_append_right, readLE_encode]

theorem patchBytes_length (d : List Nat) (off : Nat) (bs : List Nat)
    (h : off + bs.length ≤ d.length) :
    (patchBytes d off bs).length = d.length := by
  rw [patchBytes]
  simp only [List.length_append, List.length_take, List.length_drop]
  omega

theorem patchBytes_compose (d : List Nat) (off : Nat) (a b : List Nat)
    (hoff : off ≤ d.length) :
    patchBytes (patchBytes d off a) (off + a.length) b
      = patchBytes d off (a ++ b) := by
  rw [patchBytes, patchBytes, patchBytes]
  have htake : ((d.take off ++ a ++ d.drop (off + a.length)).take (off + a.length))
      = d.take off ++ a := by
    rw [List.append_assoc, List.take_append_eq_append_take]
    have h1 : (d.take off).length = off := by simp; omega
    rw [List.take_of_length_le (by omega)]
    rw [h1]
    have h2 : off + a.length - off = a.length := by omega
    rw [h2, List.take_append_eq_append_take, List.take_length,
      Nat.sub_self, List.take_zero, List.append_nil]
  have hdrop : ((d.take off ++ a ++ d.drop (off + a.length)).drop
      (off + a.length + b.length))
      = d.drop (off + (a ++ b).length) := by
    rw [List.append_assoc, List.drop_append_eq_append_drop]
    have h1 : (d.take off).length = off := by simp; omega
    rw [List.drop_eq_nil_of_le (by omega), h1, List.nil_append,
      List.drop_append_eq_append_drop, List.drop_eq_nil_of_le (by omega),
      List.length_append, List.nil_append, List.drop_drop]
    congr 1
    omega
  rw [htake, hdrop]
  simp [List.append_assoc]

/-! ## Target package writer (src/unnamed/part_003) -/

/-- `writeHeader`: the magic "PKG4" and eight zeroed placeholder
count/offset fields. -/
def writeHeader (s : Sink) : Sink :=
  let s := writeB s [0x50, 0x4B, 0x47, 0x34]
  let s := writeB s (encodeLE 4 0)
  let s := writeB s (encodeLE 8 0)
  let s := writeB s (encodeLE 4 0)
  let s := writeB s (encodeLE 8 0)
  let s := writeB s (encodeLE 4 0)
  let s := writeB s (encodeLE 8 0)
  let s := writeB s (encodeLE 4 0)
  writeB s (encodeLE 8 0)

/-- Two's-complement bit pattern of a signed value. -/
def toTC (bits : Nat) (v : Int) : Nat := (v.emod (2 ^ bits)).toNat

/-- `writeNodeData`: the 8 payload bytes, by node type; a Go type
assertion failure on `node.Data` is a panic, modelled as an error. -/
def writeNodeData (c : Converter) (s : Sink) (n : MNode) :
    Except String (Converter × Sink) :=
  match n.ty with
  | 0 => .ok (c, writeB s (encodeLE 8 0))
  | 1 =>
    match n.payload with
    | .pint v => .ok (c, writeB s (encodeLE 8 (toTC 64 v)))
    | _ => .error "type assertion: int64"
  | 2 =>
    match n.payload with
    | .pfloat bits => .ok (c, writeB s (encodeLE 8 (bits % 2 ^ 64)))
    | _ => .error "type assertion: float64"
  | 3 =>
    match n.payload with
    | .pstr str =>
      let r := getStringID c str
      let s := writeB s (encodeLE 4 (r.1 % 2 ^ 32))
      .ok (r.2, writeB s (encodeLE 4 0))
    | _ => .error "type assertion: string"
  | 4 =>
    match n.payload with
    | .ppoint x y =>
      let s := writeB s (encodeLE 4 (toTC 32 x))
      .ok (c, writeB s (encodeLE 4 (toTC 32 y)))
    | _ => .error "type assertion: point"
  | 5 =>
    match n.payload with
    | .pbitmap id w h =>
      let s := writeB s (encodeLE 4 (id % 2 ^ 32))
      let s := writeB s (encodeLE 2 (w % 2 ^ 16))
      .ok (c, writeB s (encodeLE 2 (h % 2 ^ 16)))
    | _ => .error "type assertion: bitmap"
  | 6 =>
    match n.payload with
    | .paudio id len =>
      let s := writeB s (encodeLE 4 (id % 2 ^ 32))
      .ok (c, writeB s (encodeLE 4 (len % 2 ^ 32)))
    | _ => .error "type assertion: audio"
  | _ => .ok (c, writeB s (encodeLE 8 0))

/-- One record of `writeNodes`: name id (interning on demand), first
child index from the scan over `c.nodes` (`recordedFirstChild`), child
count as u16, type as u16, then the payload.  `uint16(len(children))`
is written whether or not the children list is empty — the Go zero
initialisation and the truncated length agree on `0`. -/
def writeOneNode (allNodes : List MNode) (c : Converter) (s : Sink)
    (n : MNode) : Except String (Converter × Sink) :=
  let r := getStringID c n.name
  let firstChild := recordedFirstChild allNodes n
  let s := writeB s (encodeLE 4 (r.1 % 2 ^ 32))
  let s := writeB s (encodeLE 4 (firstChild % 2 ^ 32))
  let s := writeB s (encodeLE 2 (n.children.length % 2 ^ 16))
  let s := writeB s (encodeLE 2 (n.ty % 2 ^ 16))
  writeNodeData r.2 s n

def writeNodesLoop (allNodes : List MNode) (c : Converter) (s : Sink) :
    List MNode → Except String (Converter × Sink)
  | [] => .ok (c, s)
  | n :: rest =>
    match writeOneNode allNodes c s n with
    | .error e => .error e
    | .ok r => writeNodesLoop allNodes r.1 r.2 rest

/-- `writeNodes`: iterate the flattened `c.nodes` in order (no sorting). -/
def writeNodes (c : Converter) (s : Sink) : Except String (Converter × Sink) :=
  writeNodesLoop c.nodes c s c.nodes

/-- UTF-8 bytes of a Go string (`[]byte(str)`; `len(str)` is the byte
length). -/
def strBytes (s : String) : List Nat :=
  s.data.flatMap (fun ch => (String.utf8EncodeChar ch).map (fun b => b.toNat))

/-- Data pass of `writeStrings`: write `{length:u16, bytes}` per string,
recording each record's absolute offset (`Seek(0, io.SeekCurrent)`). -/
def writeStringsLoop (s : Sink) : List String → Sink × List Nat
  | [] => (s, [])
  | str :: rest =>
    let off := s.pos
    let s := writeB s (encodeLE 2 ((strBytes str).length % 2 ^ 16))
    let s := writeB s (strBytes str)
    let r := writeStringsLoop s rest
    (r.1, off :: r.2)

/-- `writeStrings`: string data, then the u64 offset table; returns the
offset table's own absolute offset. -/
def writeStrings (c : Converter) (s : Sink) : Nat × Sink :=
  let r := writeStringsLoop s c.strings
  let tableOff := r.1.pos
  (tableOff, r.2.foldl (fun sk off => writeB sk (encodeLE 8 (off % 2 ^ 64))) r.1)

/-- Data pass of `writeBitmaps`: `{width:u16, height:u16,
compressedSize:u32, compressed bytes}` per bitmap, recording offsets. -/
def writeBitmapsLoop (s : Sink) : List MBitmapData → Sink × List Nat
  | [] => (s, [])
  | bm :: rest =>
    let off := s.pos
    let s := writeB s (encodeLE 2 (bm.width % 2 ^ 16))
    let s := writeB s (encodeLE 2 (bm.height % 2 ^ 16))
    let s := writeB s (encodeLE 4 (bm.compressedData.length % 2 ^ 32))
    let s := writeB s bm.compressedData
    let r := writeBitmapsLoop s rest
    (r.1, off :: r.2)

/-- `writeBitmaps`: bitmap data then the u64 offset table; returns the
table's absolute offset. -/
def writeBitmaps (c : Converter) (s : Sink) : Nat × Sink :=
  let r := writeBitmapsLoop s c.bitmaps
  let tableOff := r.1.pos
  (tableOff, r.2.foldl (fun sk off => writeB sk (encodeLE 8 (off % 2 ^ 64))) r.1)

/-- Data pass of `writeAudio`: fall back to the raw bytes when no
compressed data exists (mutating the record), write the bytes with no
per-record length prefix, and record offsets. -/
def writeAudioLoop (s : Sink) : List MAudioData → Sink × List MAudioData × List Nat
  | [] => (s, [], [])
  | a :: rest =>
    let off := s.pos
    let a2 := if a.compressedData.length = 0 ∧ 0 < a.data.length then
        { a with compressedData := a.data } else a
    let s := writeB s a2.compressedData
    let r := writeAudioLoop s rest
    (r.1, a2 :: r.2.1, off :: r.2.2)

/-- `writeAudio`: audio data then the u64 offset table; returns the
table's absolute offset and the updated records. -/
def writeAudio (c : Converter) (s : Sink) : Nat × Converter × Sink :=
  let r := writeAudioLoop s c.audio
  let tableOff := r.1.pos
  let s2 := r.2.2.foldl (fun sk off => writeB sk (encodeLE 8 (off % 2 ^ 64))) r.1
  (tableOff, { c with audio := r.2.1 }, s2)

/-- `updateHeader`: seek to byte 4 (after the magic) and patch in the
real counts and offsets. -/
def updateHeader (c : Converter) (s : Sink)
    (nodeOffset stringTO bitmapTO audioTO : Nat) : Sink :=
  let s := seekTo s 4
  let s := writeB s (encodeLE 4 (c.nodes.length % 2 ^ 32))
  let s := writeB s (encodeLE 8 (nodeOffset % 2 ^ 64))
  let s := writeB s (encodeLE 4 (c.strings.length % 2 ^ 32))
  let s := writeB s (encodeLE 8 (stringTO % 2 ^ 64))
  let s := writeB s (encodeLE 4 (c.bitmaps.length % 2 ^ 32))
  let s := writeB s (encodeLE 8 (bitmapTO % 2 ^ 64))
  let s := writeB s (encodeLE 4 (c.audio.length % 2 ^ 32))
  writeB s (encodeLE 8 (audioTO % 2 ^ 64))

/-- `writeNXData`: placeholder header, nodes, strings, then (in client
mode, when non-empty) compressed bitmaps and audio, and finally the
header patch.  `compress` stands for `c.compressData` (the external LZ4
codec selected by the `hc` flag). -/
def writeNXData (compress : List Nat → Except String (List Nat))
    (c : Converter) (s : Sink) : Except String (Converter × Sink) :=
  let s := writeHeader s
  let nodeOffset := 52
  match writeNodes c s with
  | .error e => .error e
  | .ok rn =>
    let c1 := rn.1
    let s1 := rn.2
    let rs := writeStrings c1 s1
    let stringTO := rs.1
    let s2 := rs.2
    match (if c1.client = true ∧ c1.bitmaps ≠ [] then
        match compressBitmapsParallel compress c1.bitmaps with
        | .error e => .error e
        | .ok bms =>
          let c2 := { c1 with bitmaps := bms }
          let rb := writeBitmaps c2 s2
          .ok (c2, rb.2, rb.1)
      else .ok (c1, s2, 0) : Except String (Converter × Sink × Nat)) with
    | .error e => .error e
    | .ok rb2 =>
      let c3 := rb2.1
      let s3 := rb2.2.1
      let bitmapTO := rb2.2.2
      let ra := if c3.client = true ∧ c3.audio ≠ [] then
          let r := writeAudio c3 s3
          (r.2.1, r.2.2, r.1)
        else (c3, s3, 0)
      let c4 := ra.1
      let s4 := ra.2.1
      let audioTO := ra.2.2
      .ok (c4, updateHeader c4 s4 nodeOffset stringTO bitmapTO audioTO)

/-! ### Effect lemmas for the writer: positions advance by the record
sizes, the phase-1 writes stay at the end of the sink, and only the
string table fields of the converter change before the header patch. -/

theorem getStringID_fields (c : Converter) (str : String) :
    (getStringID c str).2.nodes = c.nodes
      ∧ (getStringID c str).2.bitmaps = c.bitmaps
      ∧ (getStringID c str).2.audio = c.audio
      ∧ (getStringID c str).2.client = c.client
      ∧ (getStringID c str).2.hc = c.hc := by
  rw [getStringID]
  cases h : lookupMap c.stringMap str with
  | some id => exact ⟨rfl, rfl, rfl, rfl, rfl⟩
  | none =>
    rw [addString, h]
    exact ⟨rfl, rfl, rfl, rfl, rfl⟩

theorem writeNodeData_effects (c : Converter) (s : Sink) (n : MNode)
    (h : AtEnd s) (c2 : Converter) (s2 : Sink)
    (hok : writeNodeData c s n = .ok (c2, s2)) :
    AtEnd s2 ∧ s2.pos = s.pos + 8 ∧ c2.nodes = c.nodes
      ∧ c2.bitmaps = c.bitmaps ∧ c2.audio = c.audio
      ∧ c2.client = c.client ∧ c2.hc = c.hc := by
  unfold writeNodeData at hok
  split at hok
  · cases Except.ok.inj hok
    exact ⟨writeB_atEnd_atEnd _ _ h,
      by simp [writeB_pos, encodeLE_length], rfl, rfl, rfl, rfl, rfl⟩
  · split at hok
    · cases Except.ok.inj hok
      exact ⟨writeB_atEnd_atEnd _ _ h,
        by simp [writeB_pos, encodeLE_length], rfl, rfl, rfl, rfl, rfl⟩
    · exact Except.noConfusion hok
  · split at hok
    · cases Except.ok.inj hok
      exact ⟨writeB_atEnd_atEnd _ _ h,
        by simp [writeB_pos, encodeLE_length], rfl, rfl, rfl, rfl, rfl⟩
    · exact Except.noConfusion hok
  · split at hok
    · cases Except.ok.inj hok
      obtain ⟨hn, hb, ha, hcl, hhc⟩ := getStringID_fields c _
      exact ⟨writeB_atEnd_atEnd _ _ (writeB_atEnd_atEnd _ _ h),
        by simp [writeB_pos, encodeLE_length], hn, hb, ha, hcl, hhc⟩
    · exact Except.noConfusion hok
  · split at hok
    · cases Except.ok.inj hok
      exact ⟨writeB_atEnd_atEnd _ _ (writeB_atEnd_atEnd _ _ h),
        by simp [writeB_pos, encodeLE_length], rfl, rfl, rfl, rfl, rfl⟩
    · exact Except.noConfusion hok
  · split at hok
    · cases Except.ok.inj hok
      exact ⟨writeB_atEnd_atEnd _ _ (writeB_atEnd_atEnd _ _
          (writeB_atEnd_atEnd _ _ h)),
        by simp [writeB_pos, encodeLE_length], rfl, rfl, rfl, rfl, rfl⟩
    · exact Except.noConfusion hok
  · split at hok
    · cases Except.ok.inj hok
      exact ⟨writeB_atEnd_atEnd _ _ (writeB_atEnd_atEnd _ _ h),
        by simp [writeB_pos, encodeLE_length], rfl, rfl, rfl, rfl, rfl⟩
    · exact Except.noConfusion hok
  · cases Except.ok.inj hok
    exact ⟨writeB_atEnd_atEnd _ _ h,
      by simp [writeB_pos, encodeLE_length], rfl, rfl, rfl, rfl, rfl⟩

theorem writeOneNode_effects (allNodes : List MNode) (c : Converter)
    (s : Sink) (n : MNode) (h : AtEnd s) (c2 : Converter) (s2 : Sink)
    (hok : writeOneNode allNodes c s n = .ok (c2, s2)) :
    AtEnd s2 ∧ s2.pos = s.pos + 20 ∧ c2.nodes = c.nodes
      ∧ c2.bitmaps = c.bitmaps ∧ c2.audio = c.audio
      ∧ c2.client = c.client ∧ c2.hc = c.hc := by
  unfold writeOneNode at hok
  have h4 : AtEnd (writeB (writeB (writeB (writeB s
      (encodeLE 4 ((getStringID c n.name).1 % 2 ^ 32)))
      (encodeLE 4 (recordedFirstChild allNodes n % 2 ^ 32)))
      (encodeLE 2 (n.children.length % 2 ^ 16)))
      (encodeLE 2 (n.ty % 2 ^ 16))) :=
    writeB_atEnd_atEnd _ _ (writeB_atEnd_atEnd _ _
      (writeB_atEnd_atEnd _ _ (writeB_atEnd_atEnd _ _ h)))
  obtain ⟨ha, hpos, hn, hb, haud, hcl, hhc⟩ :=
    writeNodeData_effects _ _ n h4 c2 s2 hok
  obtain ⟨gn, gb, ga, gcl, ghc⟩ := getStringID_fields c n.name
  refine ⟨ha, ?_, hn.trans gn, hb.trans gb, haud.trans ga,
    hcl.trans gcl, hhc.trans ghc⟩
  rw [hpos]
  simp [writeB_pos, encodeLE_length]

theorem writeNodesLoop_effects (allNodes : List MNode) (ns : List MNode)
    (c : Converter) (s : Sink) (h : AtEnd s) (c2 : Converter) (s2 : Sink)
    (hok : writeNodesLoop allNodes c s ns = .ok (c2, s2)) :
    AtEnd s2 ∧ s2.pos = s.pos + 20 * ns.length ∧ c2.nodes = c.nodes
      ∧ c2.bitmaps = c.bitmaps ∧ c2.audio = c.audio
      ∧ c2.client = c.client ∧ c2.hc = c.hc := by
  induction ns generalizing c s with
  | nil =>
    rw [writeNodesLoop] at hok
    cases Except.ok.inj hok
    exact ⟨h, by simp, rfl, rfl, rfl, rfl, rfl⟩
  | cons n rest ih =>
    rw [writeNodesLoop] at hok
    cases hone : writeOneNode allNodes c s n with
    | error e => rw [hone] at hok; exact Except.noConfusion hok
    | ok r =>
      rw [hone] at hok
      obtain ⟨ha1, hpos1, hn1, hb1, haud1, hcl1, hhc1⟩ :=
        writeOneNode_effects allNodes c s n h r.1 r.2 (by rw [hone])
      obtain ⟨ha2, hpos2, hn2, hb2, haud2, hcl2, hhc2⟩ := ih r.1 r.2 ha1 hok
      refine ⟨ha2, ?_, hn2.trans hn1, hb2.trans hb1, haud2.trans haud1,
        hcl2.trans hcl1, hhc2.trans hhc1⟩
      rw [hpos2, hpos1]
      simp [List.length_cons]
      omega

def strsSize : List String → Nat
  | [] => 0
  | str :: rest => 2 + (strBytes str).length + strsSize rest

theorem writeStringsLoop_effects (strs : List String) (s : Sink)
    (h : AtEnd s) :
    AtEnd (writeStringsLoop s strs).1
      ∧ (writeStringsLoop s strs).1.pos = s.pos + strsSize strs
      ∧ (writeStringsLoop s strs).2.length = strs.length := by
  induction strs generalizing s with
  | nil => exact ⟨h, by simp [writeStringsLoop, strsSize], by simp [writeStringsLoop]⟩
  | cons str rest ih =>
    rw [writeStringsLoop]
    have h2 : AtEnd (writeB (writeB s (encodeLE 2 ((strBytes str).length % 2 ^ 16)))
        (strBytes str)) :=
      writeB_atEnd_atEnd _ _ (writeB_atEnd_atEnd _ _ h)
    obtain ⟨ha, hpos, hlen⟩ := ih _ h2
    refine ⟨ha, ?_, by simpa using hlen⟩
    rw [hpos]
    simp [writeB_pos, encodeLE_length, strsSize]
    omega

theorem writeOffsets_effects (offs : List Nat) (s : Sink) (h : AtEnd s) :
    AtEnd (offs.foldl (fun sk off => writeB sk (encodeLE 8 (off % 2 ^ 64))) s)
      ∧ (offs.foldl (fun sk off => writeB sk (encodeLE 8 (off % 2 ^ 64))) s).pos
          = s.pos + 8 * offs.length := by
  induction offs generalizing s with
  | nil => exact ⟨h, by simp⟩
  | cons off rest ih =>
    simp only [List.foldl_cons]
    obtain ⟨ha, hpos⟩ := ih _ (writeB_atEnd_atEnd _ _ h)
    refine ⟨ha, ?_⟩
    rw [hpos]
    simp [writeB_pos, encodeLE_length]
    omega

theorem writeStrings_effects (c : Converter) (s : Sink) (h : AtEnd s) :
    AtEnd (writeStrings c s).2
      ∧ (writeStrings c s).1 = s.pos + strsSize c.strings
      ∧ (writeStrings c s).2.pos
          = s.pos + strsSize c.strings + 8 * c.strings.length := by
  obtain ⟨ha, hpos, hlen⟩ := writeStringsLoop_effects c.strings s h
  obtain ⟨ha2, hpos2⟩ := writeOffsets_effects (writeStringsLoop s c.strings).2 _ ha
  rw [writeStrings]
  exact ⟨ha2, hpos, by rw [hpos2, hpos, hlen]⟩

def bmsSize : List MBitmapData → Nat
  | [] => 0
  | bm :: rest => 8 + bm.compressedData.length + bmsSize rest

theorem writeBitmapsLoop_effects (bms : List MBitmapData) (s : Sink)
    (h : AtEnd s) :
    AtEnd (writeBitmapsLoop s bms).1
      ∧ (writeBitmapsLoop s bms).1.pos = s.pos + bmsSize bms
      ∧ (writeBitmapsLoop s bms).2.length = bms.length := by
  induction bms generalizing s with
  | nil => exact ⟨h, by simp [writeBitmapsLoop, bmsSize], by simp [writeBitmapsLoop]⟩
  | cons bm rest ih =>
    rw [writeBitmapsLoop]
    have h2 : AtEnd (writeB (writeB (writeB (writeB s
        (encodeLE 2 (bm.width % 2 ^ 16))) (encodeLE 2 (bm.height % 2 ^ 16)))
        (encodeLE 4 (bm.compressedData.length % 2 ^ 32))) bm.compressedData) :=
      writeB_atEnd_atEnd _ _ (writeB_atEnd_atEnd _ _
        (writeB_atEnd_atEnd _ _ (writeB_atEnd_atEnd _ _ h)))
    obtain ⟨ha, hpos, hlen⟩ := ih _ h2
    refine ⟨ha, ?_, by simpa using hlen⟩
    rw [hpos]
    simp [writeB_pos, encodeLE_length, bmsSize]
    omega

theorem writeBitmaps_effects (c : Converter) (s : Sink) (h : AtEnd s) :
    AtEnd (writeBitmaps c s).2
      ∧ (writeBitmaps c s).1 = s.pos + bmsSize c.bitmaps
      ∧ (writeBitmaps c s).2.pos
          = s.pos + bmsSize c.bitmaps + 8 * c.bitmaps.length := by
  obtain ⟨ha, hpos, hlen⟩ := writeBitmapsLoop_effects c.bitmaps s h
  obtain ⟨ha2, hpos2⟩ := writeOffsets_effects (writeBitmapsLoop s c.bitmaps).2 _ ha
  rw [writeBitmaps]
  exact ⟨ha2, hpos, by rw [hpos2, hpos, hlen]⟩

theorem bmsSize_pos (bms : List MBitmapData) (h : bms ≠ []) :
    8 ≤ bmsSize bms := by
  cases bms with
  | nil => exact absurd rfl h
  | cons bm rest => rw [bmsSize]; omega

theorem writeAudioLoop_effects (auds : List MAudioData) (s : Sink)
    (h : AtEnd s) :
    AtEnd (writeAudioLoop s auds).1
      ∧ s.pos ≤ (writeAudioLoop s auds).1.pos
      ∧ (writeAudioLoop s auds).2.1.length = auds.length
      ∧ (writeAudioLoop s auds).2.2.length = auds.length := by
  induction auds generalizing s with
  | nil =>
    exact ⟨h, by simp [writeAudioLoop], by simp [writeAudioLoop],
      by simp [writeAudioLoop]⟩
  | cons a rest ih =>
    rw [writeAudioLoop]
    obtain ⟨ha, hpos, hlen1, hlen2⟩ := ih _ (writeB_atEnd_atEnd _ _ h)
    refine ⟨ha, ?_, by simpa using hlen1, by simpa using hlen2⟩
    refine le_trans ?_ hpos
    rw [writeB_pos]
    omega

theorem writeAudio_effects (c : Converter) (s : Sink) (h : AtEnd s) :
    AtEnd (writeAudio c s).2.2
      ∧ s.pos ≤ (writeAudio c s).1
      ∧ (writeAudio c s).2.2.pos = (writeAudio c s).1 + 8 * c.audio.length
      ∧ (writeAudio c s).2.1.audio.length = c.audio.length
      ∧ (writeAudio c s).2.1.nodes = c.nodes
      ∧ (writeAudio c s).2.1.strings = c.strings
      ∧ (writeAudio c s).2.1.bitmaps = c.bitmaps := by
  obtain ⟨ha, hpos, hlen1, hlen2⟩ := writeAudioLoop_effects c.audio s h
  obtain ⟨ha2, hpos2⟩ := writeOffsets_effects (writeAudioLoop s c.audio).2.2 _ ha
  rw [writeAudio]
  exact ⟨ha2, hpos, by rw [hpos2, hlen2], by simpa using hlen1, rfl, rfl, rfl⟩

theorem compressBitmapsParallel_length
    (compress : List Nat → Except String (List Nat))
    (recs recs2 : List MBitmapData)
    (hok : compressBitmapsParallel compress recs = .ok recs2) :
    recs2.length = recs.length := by
  induction recs generalizing recs2 with
  | nil =>
    rw [compressBitmapsParallel] at hok
    cases hok
    rfl
  | cons b rest ih =>
    rw [compressBitmapsParallel] at hok
    cases hcr : compressRecord compress b with
    | error e => rw [hcr] at hok; exact Except.noConfusion hok
    | ok b2 =>
      rw [hcr] at hok
      cases hrest : compressBitmapsParallel compress rest with
      | error e => rw [hrest] at hok; exact Except.noConfusion hok
      | ok rest2 =>
        rw [hrest] at hok
        cases hok
        simpa using ih rest2 hrest

theorem writeHeader_effects (s : Sink) (h : AtEnd s) :
    AtEnd (writeHeader s) ∧ (writeHeader s).pos = s.pos + 52 := by
  rw [writeHeader]
  refine ⟨?_, ?_⟩
  · exact writeB_atEnd_atEnd _ _ (writeB_atEnd_atEnd _ _ (writeB_atEnd_atEnd _ _
      (writeB_atEnd_atEnd _ _ (writeB_atEnd_atEnd _ _ (writeB_atEnd_atEnd _ _
      (writeB_atEnd_atEnd _ _ (writeB_atEnd_atEnd _ _ (writeB_atEnd_atEnd _ _ h))))))))
  · simp [writeB_pos, encodeLE_length]

theorem updateHeader_eq (c : Converter) (s : Sink)
    (nodeOffset sTO bTO aTO : Nat) (hlen : 52 ≤ s.data.length) :
    updateHeader c s nodeOffset sTO bTO aTO
      = ⟨patchBytes s.data 4
          (encodeLE 4 (c.nodes.length % 2 ^ 32)
            ++ (encodeLE 8 (nodeOffset % 2 ^ 64)
            ++ (encodeLE 4 (c.strings.length % 2 ^ 32)
            ++ (encodeLE 8 (sTO % 2 ^ 64)
            ++ (encodeLE 4 (c.bitmaps.length % 2 ^ 32)
            ++ (encodeLE 8 (bTO % 2 ^ 64)
            ++ (encodeLE 4 (c.audio.length % 2 ^ 32)
            ++ encodeLE 8 (aTO % 2 ^ 64)))))))), 52⟩ := by
  have hc1 := patchBytes_compose s.data 4
    (encodeLE 4 (c.nodes.length % 2 ^ 32)) (encodeLE 8 (nodeOffset % 2 ^ 64))
    (by omega)
  have hc2 := patchBytes_compose s.data 4
    (encodeLE 4 (c.nodes.length % 2 ^ 32) ++ encodeLE 8 (nodeOffset % 2 ^ 64))
    (encodeLE 4 (c.strings.length % 2 ^ 32)) (by omega)
  have hc3 := patchBytes_compose s.data 4
    (encodeLE 4 (c.nodes.length % 2 ^ 32) ++ encodeLE 8 (nodeOffset % 2 ^ 64)
      ++ encodeLE 4 (c.strings.length % 2 ^ 32))
    (encodeLE 8 (sTO % 2 ^ 64)) (by omega)
  have hc4 := patchBytes_compose s.data 4
    (encodeLE 4 (c.nodes.length % 2 ^ 32) ++ encodeLE 8 (nodeOffset % 2 ^ 64)
      ++ encodeLE 4 (c.strings.length % 2 ^ 32) ++ encodeLE 8 (sTO % 2 ^ 64))
    (encodeLE 4 (c.bitmaps.length % 2 ^ 32)) (by omega)
  have hc5 := patchBytes_compose s.data 4
    (encodeLE 4 (c.nodes.length % 2 ^ 32) ++ encodeLE 8 (nodeOffset % 2 ^ 64)
      ++ encodeLE 4 (c.strings.length % 2 ^ 32) ++ encodeLE 8 (sTO % 2 ^ 64)
      ++ encodeLE 4 (c.bitmaps.length % 2 ^ 32))
    (encodeLE 8 (bTO % 2 ^ 64)) (by omega)
  have hc6 := patchBytes_compose s.data 4
    (encodeLE 4 (c.nodes.length % 2 ^ 32) ++ encodeLE 8 (nodeOffset % 2 ^ 64)
      ++ encodeLE 4 (c.strings.length % 2 ^ 32) ++ encodeLE 8 (sTO % 2 ^ 64)
      ++ encodeLE 4 (c.bitmaps.length % 2 ^ 32) ++ encodeLE 8 (bTO % 2 ^ 64))
    (encodeLE 4 (c.audio.length % 2 ^ 32)) (by omega)
  have hc7 := patchBytes_compose s.data 4
    (encodeLE 4 (c.nodes.length % 2 ^ 32) ++ encodeLE 8 (nodeOffset % 2 ^ 64)
      ++ encodeLE 4 (c.strings.length % 2 ^ 32) ++ encodeLE 8 (sTO % 2 ^ 64)
      ++ encodeLE 4 (c.bitmaps.length % 2 ^ 32) ++ encodeLE 8 (bTO % 2 ^ 64)
      ++ encodeLE 4 (c.audio.length % 2 ^ 32))
    (encodeLE 8 (aTO % 2 ^ 64)) (by omega)
  simp only [encodeLE_length, List.length_append] at hc1 hc2 hc3 hc4 hc5 hc6 hc7
  norm_num at hc1 hc2 hc3 hc4 hc5 hc6 hc7
  simp only [updateHeader, seekTo, writeB, encodeLE_length]
  norm_num
  rw [hc1, hc2, hc3, hc4, hc5, hc6, hc7]

/-- Reading the eight patched header fields back, little-endian. -/
theorem header_reads (d : List Nat) (hd : 52 ≤ d.length)
    (a b c2 e f g h i : Nat) :
    let D := patchBytes d 4
      (encodeLE 4 a ++ (encodeLE 8 b ++ (encodeLE 4 c2 ++ (encodeLE 8 e
        ++ (encodeLE 4 f ++ (encodeLE 8 g ++ (encodeLE 4 h
        ++ encodeLE 8 i)))))))
    readLE 4 D 4 = a % 256 ^ 4 ∧ readLE 8 D 8 = b % 256 ^ 8
      ∧ readLE 4 D 16 = c2 % 256 ^ 4 ∧ readLE 8 D 20 = e % 256 ^ 8
      ∧ readLE 4 D 28 = f % 256 ^ 4 ∧ readLE 8 D 32 = g % 256 ^ 8
      ∧ readLE 4 D 40 = h % 256 ^ 4 ∧ readLE 8 D 44 = i % 256 ^ 8
      ∧ D.length = d.length := by
  intro D
  have hP : (d.take 4).length = 4 := by simp; omega
  have hH : (encodeLE 4 a ++ (encodeLE 8 b ++ (encodeLE 4 c2 ++ (encodeLE 8 e
        ++ (encodeLE 4 f ++ (encodeLE 8 g ++ (encodeLE 4 h
        ++ encodeLE 8 i))))))).length = 48 := by
    simp [encodeLE_length]
  have hform : D = d.take 4 ++ (encodeLE 4 a ++ (encodeLE 8 b
      ++ (encodeLE 4 c2 ++ (encodeLE 8 e ++ (encodeLE 4 f ++ (encodeLE 8 g
      ++ (encodeLE 4 h ++ (encodeLE 8 i ++ d.drop 52)))))))) := by
    show patchBytes d 4 _ = _
    rw [patchBytes, hH]
    norm_num
  refine ⟨?_, ?_, ?_, ?_, ?_, ?_, ?_, ?_, ?_⟩
  · rw [hform]
    exact readLE_concat_at 4 a 4 (d.take 4) _ hP
  · have hf : D = (d.take 4 ++ encodeLE 4 a) ++ (encodeLE 8 b
        ++ (encodeLE 4 c2 ++ (encodeLE 8 e ++ (encodeLE 4 f ++ (encodeLE 8 g
        ++ (encodeLE 4 h ++ (encodeLE 8 i ++ d.drop 52))))))) := by
      rw [hform]; simp [List.append_assoc]
    rw [hf]
    exact readLE_concat_at 8 b 8 _ _ (by simp [encodeLE_length]; omega)
  · have hf : D = (d.take 4 ++ encodeLE 4 a ++ encodeLE 8 b)
        ++ (encodeLE 4 c2 ++ (encodeLE 8 e ++ (encodeLE 4 f ++ (encodeLE 8 g
        ++ (encodeLE 4 h ++ (encodeLE 8 i ++ d.drop 52)))))) := by
      rw [hform]; simp [List.append_assoc]
    rw [hf]
    exact readLE_concat_at 4 c2 16 _ _ (by simp [encodeLE_length]; omega)
  · have hf : D = (d.take 4 ++ encodeLE 4 a ++ encodeLE 8 b ++ encodeLE 4 c2)
        ++ (encodeLE 8 e ++ (encodeLE 4 f ++ (encodeLE 8 g
        ++ (encodeLE 4 h ++ (encodeLE 8 i ++ d.drop 52))))) := by
      rw [hform]; simp [List.append_assoc]
    rw [hf]
    exact readLE_concat_at 8 e 20 _ _ (by simp [encodeLE_length]; omega)
  · have hf : D = (d.take 4 ++ encodeLE 4 a ++ encodeLE 8 b ++ encodeLE 4 c2
        ++ encodeLE 8 e) ++ (encodeLE 4 f ++ (encodeLE 8 g
        ++ (encodeLE 4 h ++ (encodeLE 8 i ++ d.drop 52)))) := by
      rw [hform]; simp [List.append_assoc]
    rw [hf]
    exact readLE_concat_at 4 f 28 _ _ (by simp [encodeLE_length]; omega)
  · have hf : D = (d.take 4 ++ encodeLE 4 a ++ encodeLE 8 b ++ encodeLE 4 c2
        ++ encodeLE 8 e ++ encodeLE 4 f) ++ (encodeLE 8 g
        ++ (encodeLE 4 h ++ (encodeLE 8 i ++ d.drop 52))) := by
      rw [hform]; simp [List.append_assoc]
    rw [hf]
    exact readLE_concat_at 8 g 32 _ _ (by simp [encodeLE_length]; omega)
  · have hf : D = (d.take 4 ++ encodeLE 4 a ++ encodeLE 8 b ++ encodeLE 4 c2
        ++ encodeLE 8 e ++ encodeLE 4 f ++ encodeLE 8 g)
        ++ (encodeLE 4 h ++ (encodeLE 8 i ++ d.drop 52)) := by
      rw [hform]; simp [List.append_assoc]
    rw [hf]
    exact readLE_concat_at 4 h 40 _ _ (by simp [encodeLE_length]; omega)
  · have hf : D = (d.take 4 ++ encodeLE 4 a ++ encodeLE 8 b ++ encodeLE 4 c2
        ++ encodeLE 8 e ++ encodeLE 4 f ++ encodeLE 8 g ++ encodeLE 4 h)
        ++ (encodeLE 8 i ++ d.drop 52) := by
      rw [hform]; simp [List.append_assoc]
    rw [hf]
    exact readLE_concat_at 8 i 44 _ _ (by simp [encodeLE_length]; omega)
  · show (patchBytes d 4 _).length = d.length
    rw [patchBytes_length _ _ _ (by rw [hH]; omega)]

/-- C7: after a full write (client mode, all four sections non-empty),
the patched 52-byte header holds the node, string, bitmap and audio
counts equal to the in-memory collection sizes, the node-section offset
52, and offset-table offsets that are each strictly greater than the
previous section's start offset (node section start 52, string section
start 52+20·nodes, bitmap section start stringTO+8·strings). -/
theorem claim_C7_header_roundtrip
    (compress : List Nat → Except String (List Nat)) (c c2 : Converter)
    (s2 : Sink)
    (hw : writeNXData compress c initSink = .ok (c2, s2))
    (hclient : c.client = true)
    (hnodes : c.nodes ≠ []) (hbitmaps : c.bitmaps ≠ []) (haudio : c.audio ≠ [])
    (hn32 : c.nodes.length < 2 ^ 32) (hs32 : c2.strings.length < 2 ^ 32)
    (hb32 : c.bitmaps.length < 2 ^ 32) (ha32 : c.audio.length < 2 ^ 32)
    (hd64 : s2.data.length < 2 ^ 64) :
    readLE 4 s2.data 4 = c.nodes.length
    ∧ readLE 8 s2.data 8 = 52
    ∧ readLE 4 s2.data 16 = c2.strings.length
    ∧ readLE 4 s2.data 28 = c.bitmaps.length
    ∧ readLE 4 s2.data 40 = c.audio.length
    ∧ ∃ stringTO bitmapTO audioTO,
        readLE 8 s2.data 20 = stringTO
        ∧ readLE 8 s2.data 32 = bitmapTO
        ∧ readLE 8 s2.data 44 = audioTO
        ∧ 52 < stringTO
        ∧ 52 + 20 * c.nodes.length < bitmapTO
        ∧ stringTO + 8 * c2.strings.length < audioTO := by
  have hInit : AtEnd initSink := rfl
  obtain ⟨hA0, hP0⟩ := writeHeader_effects initSink hInit
  unfold writeNXData at hw
  dsimp only at hw
  cases hwn : writeNodes c (writeHeader initSink) with
  | error e =>
    rw [hwn] at hw
    exact Except.noConfusion hw
  | ok rn =>
    rw [hwn] at hw
    dsimp only at hw
    obtain ⟨hA1, hP1, hN1, hB1, hAu1, hCl1, hHc1⟩ :=
      writeNodesLoop_effects c.nodes c.nodes c (writeHeader initSink) hA0
        rn.1 rn.2 hwn
    obtain ⟨hA2, hTO2, hP2⟩ := writeStrings_effects rn.1 rn.2 hA1
    have hcleq : rn.1.client = true := by rw [hCl1, hclient]
    have hbne : rn.1.bitmaps ≠ [] := by rw [hB1]; exact hbitmaps
    have hane : rn.1.audio ≠ [] := by rw [hAu1]; exact haudio
    rw [if_pos ⟨hcleq, hbne⟩] at hw
    cases hcmp : compressBitmapsParallel compress rn.1.bitmaps with
    | error e =>
      rw [hcmp] at hw
      exact Except.noConfusion hw
    | ok bms =>
      rw [hcmp] at hw
      dsimp only at hw
      have hbmslen : bms.length = c.bitmaps.length := by
        have h := compressBitmapsParallel_length compress rn.1.bitmaps bms hcmp
        rw [hB1] at h
        exact h
      have hbmsne : bms ≠ [] := by
        intro h
        rw [h] at hbmslen
        exact hbitmaps (List.length_eq_zero.mp hbmslen.symm)
      obtain ⟨hA3, hTO3, hP3⟩ :=
        writeBitmaps_effects { rn.1 with bitmaps := bms }
          (writeStrings rn.1 rn.2).2 hA2
      rw [if_pos (⟨hcleq, hane⟩ :
        ({ rn.1 with bitmaps := bms } : Converter).client = true
          ∧ ({ rn.1 with bitmaps := bms } : Converter).audio ≠ [])] at hw
      dsimp only at hw
      obtain ⟨hA4, hTO4, hP4, hAu4, hN4, hS4, hB4⟩ :=
        writeAudio_effects { rn.1 with bitmaps := bms }
          (writeBitmaps { rn.1 with bitmaps := bms }
            (writeStrings rn.1 rn.2).2).2 hA3
      have hinj := Except.ok.inj hw
      have hc2eq : c2 = (writeAudio { rn.1 with bitmaps := bms }
          (writeBitmaps { rn.1 with bitmaps := bms }
            (writeStrings rn.1 rn.2).2).2).2.1 :=
        (congrArg Prod.fst hinj).symm
      have hs2eq : s2 = updateHeader
          (writeAudio { rn.1 with bitmaps := bms }
            (writeBitmaps { rn.1 with bitmaps := bms }
              (writeStrings rn.1 rn.2).2).2).2.1
          (writeAudio { rn.1 with bitmaps := bms }
            (writeBitmaps { rn.1 with bitmaps := bms }
              (writeStrings rn.1 rn.2).2).2).2.2
          52
          (writeStrings rn.1 rn.2).1
          (writeBitmaps { rn.1 with bitmaps := bms }
            (writeStrings rn.1 rn.2).2).1
          (writeAudio { rn.1 with bitmaps := bms }
            (writeBitmaps { rn.1 with bitmaps := bms }
              (writeStrings rn.1 rn.2).2).2).1 :=
        (congrArg Prod.snd hinj).symm
      -- abbreviations for the four converters/sinks in play
      set cB : Converter := { rn.1 with bitmaps := bms } with hcB
      set sS : Sink := (writeStrings rn.1 rn.2).2 with hsS
      set sB : Sink := (writeBitmaps cB sS).2 with hsB
      set c4 : Converter := (writeAudio cB sB).2.1 with hc4
      set s4 : Sink := (writeAudio cB sB).2.2 with hs4
      set sTO : Nat := (writeStrings rn.1 rn.2).1 with hsTO
      set bTO : Nat := (writeBitmaps cB sS).1 with hbTO
      set aTO : Nat := (writeAudio cB sB).1 with haTO
      -- numeric facts
      have hA4e : s4.pos = s4.data.length := hA4
      have hcBb : cB.bitmaps = bms := rfl
      have hcBa : cB.audio = rn.1.audio := rfl
      have hcBs : cB.strings = rn.1.strings := rfl
      have hcBn : cB.nodes = rn.1.nodes := rfl
      have hn1 : 1 ≤ c.nodes.length := List.length_pos.mpr hnodes
      have hp1 : rn.2.pos = 52 + 20 * c.nodes.length := by
        rw [hP1, hP0]
        simp [initSink]
      have hsTOv : sTO = rn.2.pos + strsSize rn.1.strings := hTO2
      have hsSpos : sS.pos = rn.2.pos + strsSize rn.1.strings
          + 8 * rn.1.strings.length := hP2
      have hbTOv : bTO = sS.pos + bmsSize bms := by rw [hTO3, hcBb]
      have hsBpos : sB.pos = sS.pos + bmsSize bms + 8 * bms.length := by
        rw [hP3, hcBb]
      have haTOge : sB.pos ≤ aTO := hTO4
      have hs4pos : s4.pos = aTO + 8 * c.audio.length := by
        rw [hP4, hcBa, hAu1]
      have hbms8 : 8 ≤ bmsSize bms := bmsSize_pos bms hbmsne
      have h52 : 52 ≤ s4.data.length := by
        rw [← hA4e]
        omega
      -- the final sink
      have hupd := updateHeader_eq c4 s4 52 sTO bTO aTO h52
      rw [hupd] at hs2eq
      have hreads := header_reads s4.data h52
        (c4.nodes.length % 2 ^ 32) (52 % 2 ^ 64)
        (c4.strings.length % 2 ^ 32) (sTO % 2 ^ 64)
        (c4.bitmaps.length % 2 ^ 32) (bTO % 2 ^ 64)
        (c4.audio.length % 2 ^ 32) (aTO % 2 ^ 64)
      obtain ⟨hr1, hr2, hr3, hr4, hr5, hr6, hr7, hr8, hrlen⟩ := hreads
      have hdata : s2.data = patchBytes s4.data 4
          (encodeLE 4 (c4.nodes.length % 2 ^ 32)
            ++ (encodeLE 8 (52 % 2 ^ 64)
            ++ (encodeLE 4 (c4.strings.length % 2 ^ 32)
            ++ (encodeLE 8 (sTO % 2 ^ 64)
            ++ (encodeLE 4 (c4.bitmaps.length % 2 ^ 32)
            ++ (encodeLE 8 (bTO % 2 ^ 64)
            ++ (encodeLE 4 (c4.audio.length % 2 ^ 32)
            ++ encodeLE 8 (aTO % 2 ^ 64)))))))) := by
        rw [hs2eq]
      have hdlen : s4.data.length = s2.data.length := by
        rw [hdata, hrlen]
      -- collection identities
      have hc4n : c4.nodes = c.nodes := by
        rw [hN4, hcBn, hN1]
      have hc4s : c4.strings = c2.strings := by
        rw [hc2eq]
      have hc4b : c4.bitmaps.length = c.bitmaps.length := by
        rw [hB4, hcBb, hbmslen]
      have hc4a : c4.audio.length = c.audio.length := by
        rw [hAu4, hcBa, hAu1]
      have h256_4 : (256 : Nat) ^ 4 = 2 ^ 32 := by norm_num
      have h256_8 : (256 : Nat) ^ 8 = 2 ^ 64 := by norm_num
      -- bounds on the offsets
      have hsTOle : sTO ≤ s4.data.length := by
        rw [← hA4e]
        omega
      have haTOle : aTO ≤ s4.data.length := by
        rw [← hA4e]
        omega
      have hlt64 : s4.data.length < 2 ^ 64 := by
        rw [hdlen]
        exact hd64
      have hstr : rn.1.strings.length = c2.strings.length := by
        rw [← hc4s, hS4, hcBs]
      refine ⟨?_, ?_, ?_, ?_, ?_, sTO, bTO, aTO, ?_, ?_, ?_, ?_, ?_, ?_⟩
      · rw [hdata, hr1, h256_4, Nat.mod_mod_of_dvd _ dvd_rfl, hc4n,
          Nat.mod_eq_of_lt hn32]
      · rw [hdata, hr2, h256_8, Nat.mod_mod_of_dvd _ dvd_rfl,
          Nat.mod_eq_of_lt (by norm_num)]
      · rw [hdata, hr3, h256_4, Nat.mod_mod_of_dvd _ dvd_rfl, hc4s,
          Nat.mod_eq_of_lt hs32]
      · rw [hdata, hr5, h256_4, Nat.mod_mod_of_dvd _ dvd_rfl]
        rw [show c4.bitmaps.length % 2 ^ 32 = c.bitmaps.length % 2 ^ 32 from
          by rw [hc4b]]
        exact Nat.mod_eq_of_lt hb32
      · rw [hdata, hr7, h256_4, Nat.mod_mod_of_dvd _ dvd_rfl]
        rw [show c4.audio.length % 2 ^ 32 = c.audio.length % 2 ^ 32 from
          by rw [hc4a]]
        exact Nat.mod_eq_of_lt ha32
      · rw [hdata, hr4, h256_8, Nat.mod_mod_of_dvd _ dvd_rfl]
        exact Nat.mod_eq_of_lt (by omega)
      · rw [hdata, hr6, h256_8, Nat.mod_mod_of_dvd _ dvd_rfl]
        exact Nat.mod_eq_of_lt (by omega)
      · rw [hdata, hr8, h256_8, Nat.mod_mod_of_dvd _ dvd_rfl]
        exact Nat.mod_eq_of_lt (by omega)
      · omega
      · omega
      · omega

def c7node : MNode := .mk "" 0 .pnil []

def c7conv : Converter :=
  { client := true, hc := false, nodes := [c7node], strings := [""],
    stringMap := [("", 0)], bitmaps := [⟨1, 1, [0], [7], 0⟩],
    audio := [⟨1, [3], [], 0⟩] }

def c7compress (d : List Nat) : Except String (List Nat) := .ok (9 :: d)

def c7res : Converter × Sink :=
  match writeNXData c7compress c7conv initSink with
  | .ok r => r
  | .error _ => (c7conv, initSink)

set_option maxRecDepth 100000 in
/-- Witness for C7 on a one-node, one-string, one-bitmap, one-audio
converter in client mode. -/
theorem claim_C7_witness :
    writeNXData c7compress c7conv initSink = .ok (c7res.1, c7res.2)
      ∧ readLE 4 c7res.2.data 4 = 1
      ∧ readLE 8 c7res.2.data 8 = 52
      ∧ readLE 4 c7res.2.data 16 = 1 := by
  have hw : writeNXData c7compress c7conv initSink = .ok (c7res.1, c7res.2) := by
    rfl
  have h := claim_C7_header_roundtrip c7compress c7conv c7res.1 c7res.2 hw
    rfl (by simp [c7conv]) (by simp [c7conv]) (by simp [c7conv])
    (by norm_num [c7conv]) (by decide) (by norm_num [c7conv])
    (by norm_num [c7conv]) (by decide)
  exact ⟨hw, h.1.trans (by rfl), h.2.1, h.2.2.1.trans (by rfl)⟩

end WzToNx
